import Mathlib

/-!
Verification of the sourcegraph-typescript language-server proxy
(`src/extension/src/lsp-conversion.ts`).

The development shallowly embeds the parts of the program the claims are
about:

* POSIX path algebra (`path.posix.join`, `path.relative`, Node URL
  path/fragment handling), modelled at the level of `/`-separated
  segments: a path or fragment string is represented by the list of its
  `/`-separated segments (the empty string is `[]`), so `"a/b"` is
  `["a", "b"]` and a trailing separator shows up as a final `""`
  segment.  An absolute pathname `"/a/b"` is represented by
  `["a", "b"]` with the leading `/` implicit.  Percent-encoding and the
  WHATWG URL parser's own dot-segment handling are abstracted away: URL
  components hold the raw segment lists.
* The two per-session rewrite rules `transformZipToFileUri` /
  `transformFileToZipUri`.
* JSON values and the recursive `rewriteUris` mutation.
* The WebSocket message handler (client → worker direction) and the
  `forward` mapper (worker → client direction) as step functions over an
  explicit session state.
* The cleanup registry (`cleanupAll` plus JS array `push`/`unshift`).
* Concurrent per-manifest dependency installation.
* The pure `convertHover` conversion.
-/

namespace LspProxy

/-! ## POSIX path segment algebra -/

/-- One step of POSIX path normalization over a stack of already-normalized
segments: empty and `.` segments are dropped, `..` pops one segment (at the
root of an absolute path it is dropped), anything else is appended.  This is
the segment-level core of `path.posix.normalize` for absolute paths. -/
def normStep (acc : List String) (s : String) : List String :=
  if s = "" ∨ s = "." then acc
  else if s = ".." then acc.dropLast
  else acc ++ [s]

/-- Absolute-path normalization: fold `normStep` over the segments.  Models
`path.posix.normalize` (and the path-resolution part of `path.resolve`) on an
absolute path, ignoring any trailing separator. -/
def normAbs (l : List String) : List String :=
  l.foldl normStep []

/-- Segment-level core of `path.posix.relative(f, t)` for two normalized
absolute paths: drop the common prefix, then one `..` per remaining segment
of `f` followed by the remaining segments of `t`.  The empty result list
models the empty relative path `""`. -/
def relSegs : List String → List String → List String
  | a :: f, b :: t =>
    if a = b then relSegs f t
    else List.replicate (f.length + 1) ".." ++ (b :: t)
  | [], t => t
  | f, [] => List.replicate f.length ".."

/-- Segment-level model of `path.posix.join(base, p)` for an absolute
`base`: concatenate, normalize, and re-append a trailing separator (a final
`""` segment) when the raw concatenation ended in one — Node's `normalize`
keeps a trailing `/`. -/
def jsJoinSegs (base p : List String) : List String :=
  let joined := if p = [] then base else base ++ p
  let core := normAbs joined
  if joined.getLast? = some "" then core ++ [""] else core

/-- Split a character list at every backslash (structural version of
`String.splitOn "\\"`, written so the kernel can evaluate it). -/
def splitBkChars : List Char → List String
  | [] => [""]
  | c :: cs =>
    let r := splitBkChars cs
    if c = '\\' then "" :: r
    else String.mk (c :: (r.headD "").data) :: r.tail

/-- Split a string at every backslash. -/
def splitOnBackslash (s : String) : List String :=
  splitBkChars s.data

/-- Model of `.replace(/\\/g, '/')` applied to a rendered path: replacing
every backslash by `/` splits each segment at its backslashes. -/
def replaceBackslashes (l : List String) : List String :=
  l.flatMap splitOnBackslash

/-- A segment is clean when it is a real path component: not empty, not `.`,
not `..`. -/
def cleanSeg (s : String) : Prop := s ≠ "" ∧ s ≠ "." ∧ s ≠ ".."

instance (s : String) : Decidable (cleanSeg s) := by
  unfold cleanSeg; infer_instance

/-- All segments of a list are clean. -/
def cleanSegs (l : List String) : Prop := ∀ s ∈ l, cleanSeg s

instance (l : List String) : Decidable (cleanSegs l) := by
  unfold cleanSegs; infer_instance

/-- A segment contains no backslash. -/
def noBackslash (s : String) : Prop := '\\' ∉ s.data

instance (s : String) : Decidable (noBackslash s) := by
  unfold noBackslash; infer_instance

/-! ## URL model

A WHATWG `URL` restricted to the components the program touches.
`pathname` holds the segments of the absolute path (the string
`"/a/b"` is `["a", "b"]`); `hash` holds the segments of the fragment
without its leading `#`, with `[]` standing for the empty/absent
fragment (in JS `url.hash` is then `""`, and `url.hash.substr(1)` is
also `""`, i.e. `[]`). -/

structure URL where
  protocol : String
  host : String
  pathname : List String
  hash : List String
deriving DecidableEq, Repr

/-- Render a URL the way `url.href` serializes it (percent-encoding
abstracted away). -/
def hrefOf (u : URL) : String :=
  u.protocol ++ "//" ++ u.host ++ "/" ++ String.intercalate "/" u.pathname ++
    (if u.hash = [] then "" else "#" ++ String.intercalate "/" u.hash)

/-- Model of Node's `pathToFileURL` on an absolute POSIX path. -/
def pathToFileURL (p : List String) : URL :=
  { protocol := "file:", host := "", pathname := p, hash := [] }

/-- Model of Node's `fileURLToPath`: fails (throws) unless the URL has the
`file:` scheme and an empty or `localhost` host; otherwise returns the
pathname.  Percent-decoding is abstracted away. -/
def fileURLToPath (u : URL) : Option (List String) :=
  if u.protocol = "file:" ∧ (u.host = "" ∨ u.host = "localhost") then
    some u.pathname
  else
    none

/-- The per-session archive→filesystem rewrite rule (source lines 194–198):
copy the session's `fileRootUri` and set its pathname to
`path.posix.join(fileRootUri.pathname, zipUri.hash.substr(1))`.  It is a
total function: nothing in its body can throw. -/
def transformZipToFileUri (fileRootUri : URL) (zipUri : URL) : URL :=
  { fileRootUri with pathname := jsJoinSegs fileRootUri.pathname zipUri.hash }

/-- The per-session filesystem→archive rewrite rule (source lines 199–204):
`fileURLToPath` the argument (throwing on non-file URLs), then copy the
session's `zipRootUri` and set its fragment to
`path.relative(extractPath, filePath)` with backslashes replaced by `/`. -/
def transformFileToZipUri (zipRootUri : URL) (extractPath : List String)
    (fileUri : URL) : Option URL :=
  (fileURLToPath fileUri).map fun filePath =>
    { zipRootUri with
      hash := replaceBackslashes (relSegs (normAbs extractPath) (normAbs filePath)) }

end LspProxy
namespace LspProxy

/-! ## Path algebra lemmas -/

theorem normStep_of_clean (acc : List String) {s : String} (h : cleanSeg s) :
    normStep acc s = acc ++ [s] := by
  obtain ⟨h1, h2, h3⟩ := h
  simp [normStep, h1, h2, h3]

theorem foldl_normStep_of_clean {l : List String} (h : cleanSegs l) :
    ∀ acc, l.foldl normStep acc = acc ++ l := by
  induction l with
  | nil => intro acc; simp
  | cons s l ih =>
    intro acc
    have hs : cleanSeg s := h s (by simp)
    have hl : cleanSegs l := fun x hx => h x (by simp [hx])
    simp only [List.foldl_cons, normStep_of_clean acc hs, ih hl]
    simp

theorem foldl_normStep_replicate (D : List String) :
    ∀ C : List String, (List.replicate D.length "..").foldl normStep (C ++ D) = C := by
  induction D using List.reverseRecOn with
  | nil => intro C; simp
  | append_singleton D x ih =>
    intro C
    have hlen : (D ++ [x]).length = D.length + 1 := by simp
    rw [hlen, List.replicate_succ, List.foldl_cons]
    have hstep : normStep (C ++ (D ++ [x])) ".." = C ++ D := by
      simp [normStep, ← List.append_assoc]
    rw [hstep, ih C]

theorem mem_foldl_normStep {s : String} :
    ∀ (l acc : List String), s ∈ l.foldl normStep acc → s ∈ acc ∨ s ∈ l := by
  intro l
  induction l with
  | nil => intro acc h; exact Or.inl h
  | cons a l ih =>
    intro acc h
    rcases ih (normStep acc a) h with h' | h'
    · unfold normStep at h'
      split at h'
      · exact Or.inl h'
      · split at h'
        · exact Or.inl ((List.dropLast_sublist _).subset h')
        · rcases List.mem_append.1 h' with h'' | h''
          · exact Or.inl h''
          · simp at h''
            simp [h'']
    · simp [h']

theorem cleanSegs_foldl_normStep :
    ∀ (l acc : List String), cleanSegs acc → cleanSegs (l.foldl normStep acc) := by
  intro l
  induction l with
  | nil => intro acc h; exact h
  | cons a l ih =>
    intro acc h
    refine ih (normStep acc a) ?_
    unfold normStep
    split
    · exact h
    · split
      · exact fun x hx => h x ((List.dropLast_sublist _).subset hx)
      · intro x hx
        rcases List.mem_append.1 hx with h' | h'
        · exact h x h'
        · simp at h'
          subst h'
          rename_i h1 h2
          push_neg at h1
          exact ⟨h1.1, h1.2, h2⟩

theorem relSegs_foldl :
    ∀ (f t : List String), cleanSegs t →
      ∀ C : List String, (relSegs f t).foldl normStep (C ++ f) = C ++ t := by
  intro f
  induction f with
  | nil =>
    intro t ht C
    have h0 : relSegs [] t = t := by cases t <;> rfl
    rw [h0]
    simpa using foldl_normStep_of_clean ht C
  | cons a f ih =>
    intro t ht C
    match t with
    | [] =>
      have h1 : relSegs (a :: f) [] = List.replicate (a :: f).length ".." := rfl
      rw [h1]
      simpa using foldl_normStep_replicate (a :: f) C
    | b :: t =>
      by_cases hab : a = b
      · subst hab
        have h1 : relSegs (a :: f) (a :: t) = relSegs f t := by simp [relSegs]
        have ht' : cleanSegs t := fun x hx => ht x (by simp [hx])
        have h2 := ih t ht' (C ++ [a])
        rw [h1]
        have h3 : C ++ a :: f = (C ++ [a]) ++ f := by simp
        rw [h3, h2]
        simp
      · have h1 : relSegs (a :: f) (b :: t) =
            List.replicate (f.length + 1) ".." ++ (b :: t) := by
          simp [relSegs, hab]
        rw [h1, List.foldl_append]
        have h2 : (List.replicate (f.length + 1) "..").foldl normStep (C ++ a :: f) = C := by
          have := foldl_normStep_replicate (a :: f) C
          simpa using this
        rw [h2]
        exact foldl_normStep_of_clean ht C

theorem mem_relSegs :
    ∀ (f t : List String) (s : String), s ∈ relSegs f t → s = ".." ∨ s ∈ t := by
  intro f
  induction f with
  | nil =>
    intro t s hs
    have h0 : relSegs [] t = t := by cases t <;> rfl
    rw [h0] at hs
    exact Or.inr hs
  | cons a f ih =>
    intro t s hs
    match t with
    | [] =>
      have h1 : relSegs (a :: f) [] = List.replicate (a :: f).length ".." := rfl
      rw [h1] at hs
      exact Or.inl (List.eq_of_mem_replicate hs)
    | b :: t =>
      by_cases hab : a = b
      · subst hab
        have h1 : relSegs (a :: f) (a :: t) = relSegs f t := by simp [relSegs]
        rw [h1] at hs
        rcases ih t s hs with h | h
        · exact Or.inl h
        · exact Or.inr (by simp [h])
      · have h1 : relSegs (a :: f) (b :: t) =
            List.replicate (f.length + 1) ".." ++ (b :: t) := by
          simp [relSegs, hab]
        rw [h1] at hs
        rcases List.mem_append.1 hs with h | h
        · exact Or.inl (List.eq_of_mem_replicate h)
        · exact Or.inr h

theorem splitBkChars_of_noBackslash :
    ∀ cs : List Char, '\\' ∉ cs → splitBkChars cs = [String.mk cs] := by
  intro cs
  induction cs with
  | nil => intro _; rfl
  | cons c cs ih =>
    intro h
    have hc : ¬ c = '\\' := fun hc => h (by simp [hc])
    have hcs : '\\' ∉ cs := fun hm => h (by simp [hm])
    simp only [splitBkChars, ih hcs, if_neg hc]
    rfl

theorem splitOnBackslash_of_noBackslash {s : String} (h : noBackslash s) :
    splitOnBackslash s = [s] := by
  unfold splitOnBackslash
  rw [splitBkChars_of_noBackslash s.data h]

theorem replaceBackslashes_of_noBackslash {l : List String}
    (h : ∀ s ∈ l, noBackslash s) : replaceBackslashes l = l := by
  induction l with
  | nil => rfl
  | cons s l ih =>
    have hs := splitOnBackslash_of_noBackslash (h s (by simp))
    have hl : replaceBackslashes l = l := ih fun x hx => h x (by simp [hx])
    show (s :: l).flatMap splitOnBackslash = s :: l
    rw [List.flatMap_cons, hs]
    have h2 : l.flatMap splitOnBackslash = l := hl
    rw [h2]
    rfl

theorem normAbs_of_clean {l : List String} (h : cleanSegs l) : normAbs l = l := by
  simpa [normAbs] using foldl_normStep_of_clean h []

theorem cleanSegs_normAbs (l : List String) : cleanSegs (normAbs l) :=
  cleanSegs_foldl_normStep l [] (by intro x hx; simp at hx)

theorem not_mem_of_getLast?_ne {l : List String} {x : String}
    (h : x ∉ l) : l.getLast? ≠ some x := by
  intro hx
  obtain ⟨hne, heq⟩ := List.mem_getLast?_eq_getLast (by simpa using hx)
  exact h (heq ▸ List.getLast_mem hne)

theorem jsJoinSegs_def (base p : List String) :
    jsJoinSegs base p =
      if (if p = [] then base else base ++ p).getLast? = some ""
      then normAbs (if p = [] then base else base ++ p) ++ [""]
      else normAbs (if p = [] then base else base ++ p) := rfl

theorem jsJoinSegs_nil (base : List String) :
    jsJoinSegs base [] =
      if base.getLast? = some "" then normAbs base ++ [""] else normAbs base := by
  rw [jsJoinSegs_def]
  simp

theorem jsJoinSegs_of_ne_nil (base : List String) {p : List String} (h : p ≠ []) :
    jsJoinSegs base p =
      if (base ++ p).getLast? = some ""
      then normAbs (base ++ p) ++ [""]
      else normAbs (base ++ p) := by
  rw [jsJoinSegs_def]
  simp [h]

/-- Joining the relative path from `E` to a normalized `X` back onto `E`
recovers `X`. -/
theorem jsJoin_relSegs {E X : List String} (hE : cleanSegs E) (hX : cleanSegs X) :
    jsJoinSegs E (relSegs E X) = X := by
  have hfold : (relSegs E X).foldl normStep E = X := by
    simpa using relSegs_foldl E X hX []
  by_cases h : relSegs E X = []
  · rw [h] at hfold
    simp only [List.foldl_nil] at hfold
    rw [h, jsJoinSegs_nil]
    have hlast : ¬ E.getLast? = some "" := by
      refine not_mem_of_getLast?_ne ?_
      intro hmem
      exact (hE "" hmem).1 rfl
    rw [if_neg hlast, normAbs_of_clean hE]
    exact hfold
  · rw [jsJoinSegs_of_ne_nil E h]
    have hlast : ¬ (E ++ relSegs E X).getLast? = some "" := by
      refine not_mem_of_getLast?_ne ?_
      intro hmem
      rcases List.mem_append.1 hmem with hm | hm
      · exact (hE "" hm).1 rfl
      · rcases mem_relSegs E X "" hm with h' | h'
        · exact absurd h'.symm (by decide)
        · exact (hX "" h').1 rfl
    rw [if_neg hlast]
    unfold normAbs
    rw [List.foldl_append]
    have hbase : E.foldl normStep [] = E := by
      simpa using foldl_normStep_of_clean hE []
    rw [hbase]
    exact hfold

end LspProxy
namespace LspProxy

theorem transformZip_pathname (E : List String) (A : URL) :
    transformZipToFileUri (pathToFileURL E) A =
      { protocol := "file:", host := "", pathname := jsJoinSegs E A.hash, hash := [] } := rfl

theorem transformFileToZip_of_file (z : URL) (E p : List String) :
    transformFileToZipUri z E { protocol := "file:", host := "", pathname := p, hash := [] } =
      some { z with hash := replaceBackslashes (relSegs (normAbs E) (normAbs p)) } := by
  simp [transformFileToZipUri, fileURLToPath]

theorem jsJoinSegs_eq_normAbs {E frag : List String} (hE : cleanSegs E)
    (hlast : frag.getLast? ≠ some "") :
    jsJoinSegs E frag = normAbs (if frag = [] then E else E ++ frag) := by
  by_cases h : frag = []
  · rw [h, jsJoinSegs_nil, if_pos rfl]
    have hlastE : ¬ E.getLast? = some "" := by
      refine not_mem_of_getLast?_ne ?_
      intro hmem
      exact (hE "" hmem).1 rfl
    rw [if_neg hlastE]
  · rw [jsJoinSegs_of_ne_nil E h, if_neg h]
    have hlast2 : ¬ (E ++ frag).getLast? = some "" := by
      rw [List.getLast?_append_of_ne_nil E h]
      exact hlast
    rw [if_neg hlast2]

theorem relSegs_noBackslash {E X : List String} (hXb : ∀ s ∈ X, noBackslash s) :
    ∀ s ∈ relSegs E X, noBackslash s := by
  intro s hs
  rcases mem_relSegs E X s hs with h | h
  · rw [h]
    decide
  · exact hXb s h

/-- The key facts about a filesystem address produced by the
archive→filesystem rule: converting it back to the archive space succeeds and
yields the relative path from the extraction root, and converting that
forward again reproduces the same filesystem pathname. -/
theorem roundTrip_core {z : URL} {E frag : List String} (hE : cleanSegs E)
    (hEb : ∀ s ∈ E, noBackslash s) (hlast : frag.getLast? ≠ some "")
    (hfb : ∀ s ∈ frag, noBackslash s) :
    transformFileToZipUri z E
        { protocol := "file:", host := "", pathname := jsJoinSegs E frag, hash := [] } =
      some { z with hash := relSegs E (jsJoinSegs E frag) } ∧
    jsJoinSegs E (relSegs E (jsJoinSegs E frag)) = jsJoinSegs E frag := by
  have hXeq : jsJoinSegs E frag = normAbs (if frag = [] then E else E ++ frag) :=
    jsJoinSegs_eq_normAbs hE hlast
  have hXclean : cleanSegs (jsJoinSegs E frag) := by
    rw [hXeq]; exact cleanSegs_normAbs _
  have hXb : ∀ s ∈ jsJoinSegs E frag, noBackslash s := by
    intro s hs
    rw [hXeq] at hs
    rcases mem_foldl_normStep _ [] hs with h | h
    · simp at h
    · by_cases hf : frag = []
      · rw [if_pos hf] at h
        exact hEb s h
      · rw [if_neg hf] at h
        rcases List.mem_append.1 h with h' | h'
        · exact hEb s h'
        · exact hfb s h'
  have hnormE : normAbs E = E := normAbs_of_clean hE
  have hnormX : normAbs (jsJoinSegs E frag) = jsJoinSegs E frag :=
    normAbs_of_clean hXclean
  constructor
  · rw [transformFileToZip_of_file, hnormE, hnormX,
      replaceBackslashes_of_noBackslash (relSegs_noBackslash hXb)]
  · exact jsJoin_relSegs hE hXclean

end LspProxy
namespace LspProxy

/-- Claim C1: the two per-session rewrite rules are exact inverses on their
root scopes.  As stated this is FALSE: for the session with extraction root
`/tmp/cache/repo` and archive root `https://example.com/repo.zip`, the
address `https://example.com/repo.zip#src/` (fragment with a trailing path
separator) lies under the archive root, yet
`toFilesystem(toArchive(toFilesystem(A)))` has pathname `…/repo/src` while
`toFilesystem(A)` has pathname `…/repo/src/` — `path.posix.join` keeps the
trailing separator but `path.relative` drops it. -/
theorem c1_counterexample :
    (transformFileToZipUri
        { protocol := "https:", host := "example.com", pathname := ["repo.zip"], hash := [] }
        ["tmp", "cache", "repo"]
        (transformZipToFileUri (pathToFileURL ["tmp", "cache", "repo"])
          { protocol := "https:", host := "example.com", pathname := ["repo.zip"],
            hash := ["src", ""] })).map
      (transformZipToFileUri (pathToFileURL ["tmp", "cache", "repo"])) ≠
    some (transformZipToFileUri (pathToFileURL ["tmp", "cache", "repo"])
      { protocol := "https:", host := "example.com", pathname := ["repo.zip"],
        hash := ["src", ""] }) := by
  decide

/-- Claim C1 (amended): the two per-session rewrite rules are exact inverses
on their root scopes, restricted to addresses whose path segments contain no
backslash and, in the archive direction, whose fragment does not end in a
path separator.  First conjunct: for every address `A` under the session's
archive root (same scheme, host and path as the archive root) with such a
fragment, `toFilesystem(toArchive(toFilesystem(A))) = toFilesystem(A)`.
Second conjunct: for every file address `A` under the filesystem extraction
root with backslash-free segments on which `toArchive` succeeds with value
`B`, `toArchive(toFilesystem(toArchive(A))) = toArchive(A) = B`. -/
theorem c1_inverse_amended (zipRootUri : URL) (E : List String)
    (hE : cleanSegs E) (hEb : ∀ s ∈ E, noBackslash s) :
    (∀ A : URL, A.protocol = zipRootUri.protocol → A.host = zipRootUri.host →
      A.pathname = zipRootUri.pathname →
      A.hash.getLast? ≠ some "" → (∀ s ∈ A.hash, noBackslash s) →
      (transformFileToZipUri zipRootUri E
          (transformZipToFileUri (pathToFileURL E) A)).map
            (transformZipToFileUri (pathToFileURL E)) =
        some (transformZipToFileUri (pathToFileURL E) A)) ∧
    (∀ A B : URL, (∀ s ∈ A.pathname, noBackslash s) →
      (normAbs E).isPrefixOf (normAbs A.pathname) = true →
      transformFileToZipUri zipRootUri E A = some B →
      transformFileToZipUri zipRootUri E
          (transformZipToFileUri (pathToFileURL E) B) = some B) := by
  constructor
  · intro A _ _ _ hlast hfb
    obtain ⟨h1, h2⟩ := roundTrip_core (z := zipRootUri) hE hEb hlast hfb
    rw [transformZip_pathname, h1]
    show some (URL.mk "file:" "" (jsJoinSegs E (relSegs E (jsJoinSegs E A.hash))) []) =
      some (URL.mk "file:" "" (jsJoinSegs E A.hash) [])
    rw [h2]
  · intro A B hAb _ hAB
    have hproto : A.protocol = "file:" ∧ (A.host = "" ∨ A.host = "localhost") := by
      by_contra hcon
      have hnone : fileURLToPath A = none := by
        simp [fileURLToPath, hcon]
      unfold transformFileToZipUri at hAB
      rw [hnone] at hAB
      simp at hAB
    have hpath : fileURLToPath A = some A.pathname := by
      simp [fileURLToPath, hproto]
    have h5 : transformFileToZipUri zipRootUri E A =
        some { zipRootUri with
          hash := replaceBackslashes (relSegs (normAbs E) (normAbs A.pathname)) } := by
      unfold transformFileToZipUri
      rw [hpath]
      rfl
    have hB : B = { zipRootUri with
        hash := replaceBackslashes (relSegs (normAbs E) (normAbs A.pathname)) } := by
      rw [h5] at hAB
      exact (Option.some.inj hAB).symm
    have hnormE : normAbs E = E := normAbs_of_clean hE
    have hXclean : cleanSegs (normAbs A.pathname) := cleanSegs_normAbs _
    have hXb : ∀ s ∈ normAbs A.pathname, noBackslash s := by
      intro s hs
      rcases mem_foldl_normStep _ [] hs with h | h
      · simp at h
      · exact hAb s h
    have hrel : replaceBackslashes (relSegs (normAbs E) (normAbs A.pathname)) =
        relSegs E (normAbs A.pathname) := by
      rw [hnormE]
      exact replaceBackslashes_of_noBackslash (relSegs_noBackslash hXb)
    have hBhash : B.hash = relSegs E (normAbs A.pathname) := by
      rw [hB]
      exact hrel
    have key : transformFileToZipUri zipRootUri E
        (transformZipToFileUri (pathToFileURL E) B) =
        some { zipRootUri with
          hash :=
            replaceBackslashes (relSegs (normAbs E) (normAbs (jsJoinSegs E B.hash))) } := by
      rw [transformZip_pathname, transformFileToZip_of_file]
    rw [key, hBhash, jsJoin_relSegs hE hXclean, normAbs_of_clean hXclean, hrel, hB, hrel]

/-- Witness for `c1_inverse_amended`: a concrete session and a concrete
address in each direction. -/
theorem c1_inverse_amended_witness :
    (cleanSegs ["tmp", "cache", "repo"] ∧
      (∀ s ∈ ["tmp", "cache", "repo"], noBackslash s)) ∧
    (transformFileToZipUri
        { protocol := "https:", host := "example.com", pathname := ["repo.zip"], hash := [] }
        ["tmp", "cache", "repo"]
        (transformZipToFileUri (pathToFileURL ["tmp", "cache", "repo"])
          { protocol := "https:", host := "example.com", pathname := ["repo.zip"],
            hash := ["src", "index.ts"] })).map
      (transformZipToFileUri (pathToFileURL ["tmp", "cache", "repo"])) =
    some (transformZipToFileUri (pathToFileURL ["tmp", "cache", "repo"])
      { protocol := "https:", host := "example.com", pathname := ["repo.zip"],
        hash := ["src", "index.ts"] }) := by
  refine ⟨⟨by decide, by decide⟩, ?_⟩
  exact (c1_inverse_amended
    { protocol := "https:", host := "example.com", pathname := ["repo.zip"], hash := [] }
    ["tmp", "cache", "repo"] (by decide) (by decide)).1
    { protocol := "https:", host := "example.com", pathname := ["repo.zip"],
      hash := ["src", "index.ts"] }
    rfl rfl rfl (by decide) (by decide)

end LspProxy
namespace LspProxy

/-! ## `convertHover` (src/extension/src/lsp-conversion.ts, part 1) -/

/-- An LSP `Position`. -/
structure LspPosition where
  line : Nat
  character : Nat
deriving DecidableEq, Repr

/-- An LSP `Range` (`start`/`end`; `end` is a reserved word, hence
`endPos`). -/
structure LspRange where
  start : LspPosition
  endPos : LspPosition
deriving DecidableEq, Repr

/-- A `sourcegraph.Range` as constructed by `new sourcegraph.Range(l1, c1,
l2, c2)`. -/
structure SgRange where
  startLine : Nat
  startCharacter : Nat
  endLine : Nat
  endCharacter : Nat
deriving DecidableEq, Repr

/-- Source lines 4–6: `convertRange`. -/
def convertRange (range : LspRange) : SgRange :=
  { startLine := range.start.line, startCharacter := range.start.character,
    endLine := range.endPos.line, endCharacter := range.endPos.character }

/-- One entry of `Hover.contents`: a `MarkupContent` (`kind` + `value`), a
plain `MarkedString` string, or a language-tagged `MarkedString` code
block. -/
inductive HoverContent where
  | markup (kind : String) (value : String)
  | plain (s : String)
  | code (language : String) (value : String)
deriving DecidableEq, Repr

/-- An LSP `Hover`: contents are a single entry or an array of entries
(`Array.isArray` distinguishes the two), plus an optional range. -/
structure LspHover where
  contents : Sum HoverContent (List HoverContent)
  range : Option LspRange
deriving Repr

/-- A `sourcegraph.MarkupContent`. -/
structure SgMarkupContent where
  kind : String
  value : String
deriving DecidableEq, Repr

/-- The `sourcegraph.Hover` produced by `convertHover`. -/
structure SgHover where
  range : Option SgRange
  contents : SgMarkupContent
deriving DecidableEq, Repr

/-- The body of the `.map` callback in `convertHover` (source lines 18–30):
`MarkupContent` values pass through, plain strings pass through, a falsy
(empty) code value yields `""`, and otherwise the code value is fenced with
its language tag. -/
def renderContent : HoverContent → String
  | .markup _ value => value
  | .plain s => s
  | .code language value =>
    if value = "" then ""
    else "```" ++ language ++ "\n" ++ value ++ "\n```"

/-- Source lines 8–35: `convertHover`. -/
def convertHover : Option LspHover → Option SgHover
  | none => none
  | some hover =>
    let contents := match hover.contents with
      | .inr l => l
      | .inl c => [c]
    some
      { range := hover.range.map convertRange,
        contents :=
          { kind := "markdown",
            value :=
              String.intercalate "\n\n---\n\n"
                ((contents.map renderContent).filter fun str => ¬ str.trim = "") } }

/-- Modelled from the claim's wording, for comparison with `convertHover`:
render each entry (markup value as-is, plain string as-is, language-tagged
code fenced in triple backticks, an entry with an empty value as the empty
string), drop entries that are empty or whitespace-only, and join with the
separator. -/
def hoverValueSpec (hover : LspHover) : String :=
  let entries := match hover.contents with
    | .inr l => l
    | .inl c => [c]
  let rendered := entries.map fun entry =>
    match entry with
    | .markup _ v => v
    | .plain s => s
    | .code lang v => if v = "" then "" else "```" ++ lang ++ "\n" ++ v ++ "\n```"
  String.intercalate "\n\n---\n\n" (rendered.filter fun s => ¬ s.trim = "")

/-- Claim C10: `convertHover` returns null exactly when its argument is
null, and for every non-null hover returns a Markdown-kind result whose
value renders each entry, drops empty/whitespace-only entries, and joins
with the separator. -/
theorem c10_convertHover :
    (∀ o : Option LspHover, convertHover o = none ↔ o = none) ∧
    (∀ h : LspHover, convertHover (some h) =
      some { range := h.range.map convertRange,
             contents := { kind := "markdown", value := hoverValueSpec h } }) := by
  constructor
  · intro o
    match o with
    | none => simp [convertHover]
    | some h => simp [convertHover]
  · intro h
    have hr : ∀ c, renderContent c =
        (match c with
          | HoverContent.markup _ v => v
          | HoverContent.plain s => s
          | HoverContent.code lang v =>
            if v = "" then "" else "```" ++ lang ++ "\n" ++ v ++ "\n```") := by
      intro c
      cases c <;> rfl
    have hfun : renderContent =
        (fun c => match c with
          | HoverContent.markup _ v => v
          | HoverContent.plain s => s
          | HoverContent.code lang v =>
            if v = "" then "" else "```" ++ lang ++ "
" ++ v ++ "
```") :=
      funext hr
    match h with
    | ⟨contents, range⟩ =>
      cases contents <;>
        simp [convertHover, hoverValueSpec, hfun]

end LspProxy
namespace LspProxy

/-! ## Cleanup registry (source lines 124–133, 184–192, 255, 317) -/

/-- A cleanup action, identified by its registration tag; `ok` records
whether the action succeeds or throws when invoked. -/
structure CleanupFn where
  tag : Nat
  ok : Bool
deriving DecidableEq, Repr

/-- Source lines 125–133: `cleanupAll` awaits each action of the iterable in
list order, catching and logging each individual failure.  The result is
the pair of the tags in execution order and the tags whose action threw
(the logged errors), also in execution order. -/
def cleanupAll (cleanupFns : List CleanupFn) : List Nat × List Nat :=
  cleanupFns.foldl
    (fun acc c => (acc.1 ++ [c.tag], if c.ok then acc.2 else acc.2 ++ [c.tag]))
    ([], [])

/-- JS `array.push(x)`: append at the back (used to register the worker
disposal and the temp-dir deletion, lines 187 and 255). -/
def jsPush (l : List CleanupFn) (c : CleanupFn) : List CleanupFn := l ++ [c]

/-- JS `array.unshift(x)`: prepend at the front (used to register yarn
process kills, line 317). -/
def jsUnshift (c : CleanupFn) (l : List CleanupFn) : List CleanupFn := c :: l

theorem cleanupAll_foldl (fns : List CleanupFn) :
    ∀ a b : List Nat,
      fns.foldl
        (fun acc c => (acc.1 ++ [c.tag], if c.ok then acc.2 else acc.2 ++ [c.tag]))
        (a, b) =
      (a ++ fns.map CleanupFn.tag,
        b ++ (fns.filter fun c => !c.ok).map CleanupFn.tag) := by
  induction fns with
  | nil => intro a b; simp
  | cons c fns ih =>
    intro a b
    by_cases h : c.ok
    · simp only [List.foldl_cons, h, if_pos]
      rw [ih]
      simp [h]
    · simp only [List.foldl_cons, if_neg h]
      rw [ih]
      simp [h]

theorem cleanupAll_eq (fns : List CleanupFn) :
    cleanupAll fns =
      (fns.map CleanupFn.tag, (fns.filter fun c => !c.ok).map CleanupFn.tag) := by
  unfold cleanupAll
  simpa using cleanupAll_foldl fns [] []

/-- Claim C3: running the cleanup registry executes the actions in
most-recently-registered-first order.  As stated this is FALSE: `cleanupAll`
iterates the array front to back, and `push`-registered actions (the worker
disposal and the temp-dir deletion) sit in registration order, so two
actions registered with `push` run oldest-first, not newest-first. -/
theorem c3_counterexample :
    (cleanupAll (jsPush (jsPush [] ⟨1, true⟩) ⟨2, true⟩)).1 = [1, 2] ∧
    (cleanupAll (jsPush (jsPush [] ⟨1, true⟩) ⟨2, true⟩)).1 ≠
      ((jsPush (jsPush [] ⟨1, true⟩) ⟨2, true⟩).map CleanupFn.tag).reverse := by
  decide

/-- Claim C3 (amended): running the cleanup registry executes all N
registered actions exactly once, in array order — `push`-registered actions
in registration order, and `unshift`-registered actions before all existing
ones, newest first — and a failure thrown by any action is caught and logged
(its tag lands in the error log) without preventing the remaining actions
from running: the execution order is exactly the array's tag list,
independent of which actions fail. -/
theorem c3_cleanup_amended :
    (∀ fns : List CleanupFn, (cleanupAll fns).1 = fns.map CleanupFn.tag) ∧
    (∀ fns : List CleanupFn,
      (cleanupAll fns).2 = (fns.filter fun c => !c.ok).map CleanupFn.tag) ∧
    (∀ (l : List CleanupFn) (c : CleanupFn),
      (cleanupAll (jsPush l c)).1 = (cleanupAll l).1 ++ [c.tag]) ∧
    (∀ (l : List CleanupFn) (c : CleanupFn),
      (cleanupAll (jsUnshift c l)).1 = c.tag :: (cleanupAll l).1) := by
  refine ⟨?_, ?_, ?_, ?_⟩
  · intro fns
    rw [cleanupAll_eq]
  · intro fns
    rw [cleanupAll_eq]
  · intro l c
    rw [cleanupAll_eq, cleanupAll_eq]
    simp [jsPush]
  · intro l c
    rw [cleanupAll_eq, cleanupAll_eq]
    simp [jsUnshift]

/-! ## Concurrent dependency installation (source lines 296–328) -/

/-- One discovered package manifest together with the outcome of its
filter-and-install pipeline; `Except.error` models a rejected install
promise (`yarnProcess.on('error', reject)` or a `filterDependencies`
failure). -/
structure ManifestInstall where
  path : String
  outcome : Except String Unit
deriving Repr

/-- The async callback mapped over `packageJsonPaths` (source lines
298–326): run the per-manifest install and catch any failure, logging it
via `logger.error`.  Returns the log lines it produced; the callback itself
never rejects. -/
def installTask (m : ManifestInstall) : List String :=
  match m.outcome with
  | .ok _ => []
  | .error e => ["Installation for " ++ m.path ++ " failed: " ++ e]

/-- `Promise.all` over tasks: rejects if any task rejects, otherwise
collects every task's logs in order. -/
def promiseAll (ts : List (Except String (List String))) : Except String (List String) :=
  ts.foldr
    (fun t acc => do
      let l ← t
      let ls ← acc
      pure (l ++ ls))
    (.ok [])

/-- Source lines 296–328: `await Promise.all(packageJsonPaths.map(...))`
with the per-manifest try/catch. -/
def installDependencies (ms : List ManifestInstall) : Except String (List String) :=
  promiseAll (ms.map fun m => .ok (installTask m))

/-- Claim C8: a failed installation for one manifest is caught and logged
and is non-fatal.  First conjunct: installing any set of manifests always
resolves (never rejects), with exactly the failing manifests' log lines —
so the handshake proceeds regardless of how many installs fail.  Second
conjunct: the combined result around any one manifest `m` splits into the
other manifests' contributions, which do not depend on `m`'s outcome —
one manifest's failure does not abort or affect any other install. -/
theorem c8_install_failures_nonfatal :
    (∀ ms : List ManifestInstall,
      installDependencies ms = .ok (ms.flatMap installTask)) ∧
    (∀ (ms₁ ms₂ : List ManifestInstall) (m : ManifestInstall),
      installDependencies (ms₁ ++ m :: ms₂) =
        .ok (ms₁.flatMap installTask ++ installTask m ++ ms₂.flatMap installTask)) := by
  have hmain : ∀ ms : List ManifestInstall,
      installDependencies ms = .ok (ms.flatMap installTask) := by
    intro ms
    induction ms with
    | nil => rfl
    | cons m ms ih =>
      unfold installDependencies promiseAll at *
      simp only [List.map_cons, List.foldr_cons]
      rw [ih]
      rfl
  refine ⟨hmain, ?_⟩
  intro ms₁ ms₂ m
  rw [hmain]
  simp

end LspProxy
namespace LspProxy

/-! ## JSON values and `rewriteUris` (source lines 87–100)

JSON-parsed JavaScript values.  `null` also stands for `undefined` (a
JSON-parsed message cannot contain `undefined`; where the program
distinguishes the two — `result !== undefined`, `id === null` — the model
tests key presence instead). -/

inductive JVal where
  | null
  | bool (b : Bool)
  | num (n : Int)
  | str (s : String)
  | arr (elems : List JVal)
  | obj (fields : List (String × JVal))
deriving Repr

mutual

/-- Source lines 90–100, `rewriteUris(obj, transform)`, as a pure function:
primitives are left alone (`typeof obj !== 'object'`), arrays recurse into
their elements, and objects first replace a `"uri"` field (the program
mutates `obj.uri` before the key loop; revisiting the updated string in the
loop is a no-op, so the embedding rewrites that field directly) and recurse
into all other fields.  `t` models `uri => transform(new URL(uri)).href` and
returns `none` where that expression throws; a `"uri"` field holding a
non-string models `new URL(<non-string>)`, which throws on JSON values.
The result is `none` exactly when the original function throws. -/
def rewriteUris (t : String → Option String) : JVal → Option JVal
  | .null => some .null
  | .bool b => some (.bool b)
  | .num n => some (.num n)
  | .str s => some (.str s)
  | .arr l => (rewriteUrisArr t l).map .arr
  | .obj fields => (rewriteUrisObj t fields).map .obj

/-- Elementwise `rewriteUris` over an array, failing if any element
fails. -/
def rewriteUrisArr (t : String → Option String) : List JVal → Option (List JVal)
  | [] => some []
  | v :: vs => do
    let v' ← rewriteUris t v
    let vs' ← rewriteUrisArr t vs
    pure (v' :: vs')

/-- Fieldwise `rewriteUris` over an object: the `"uri"` field is replaced by
the transformed string (failing when the value is not a string or the
transform fails), all other fields recurse. -/
def rewriteUrisObj (t : String → Option String) :
    List (String × JVal) → Option (List (String × JVal))
  | [] => some []
  | (k, v) :: fs => do
    let v' ←
      if k = "uri" then
        match v with
        | .str s => (t s).map JVal.str
        | _ => none
      else rewriteUris t v
    let fs' ← rewriteUrisObj t fs
    pure ((k, v') :: fs')

end

mutual

/-- Well-formedness of a message relative to the transform `t`: object keys
are distinct (JavaScript objects cannot carry duplicate keys) and every
`"uri"` field holds a string accepted by `t`. -/
def wellFormedU (t : String → Option String) : JVal → Bool
  | .obj fields => decide ((fields.map Prod.fst).Nodup) && wellFormedObj t fields
  | .arr l => wellFormedArr t l
  | _ => true

/-- `wellFormedU` over an array's elements. -/
def wellFormedArr (t : String → Option String) : List JVal → Bool
  | [] => true
  | v :: vs => wellFormedU t v && wellFormedArr t vs

/-- `wellFormedU` over an object's fields. -/
def wellFormedObj (t : String → Option String) : List (String × JVal) → Bool
  | [] => true
  | (k, v) :: fs =>
    (if k = "uri" then
      match v with
      | .str s => (t s).isSome
      | _ => false
    else wellFormedU t v) && wellFormedObj t fs

end

mutual

/-- Erase every `"uri"` field's value (to `null`), keeping everything else:
two values agree under `eraseUris` exactly when they are identical outside
their `"uri"` fields. -/
def eraseUris : JVal → JVal
  | .obj fields => .obj (eraseUrisObj fields)
  | .arr l => .arr (eraseUrisArr l)
  | v => v

/-- `eraseUris` over an array's elements. -/
def eraseUrisArr : List JVal → List JVal
  | [] => []
  | v :: vs => eraseUris v :: eraseUrisArr vs

/-- `eraseUris` over an object's fields. -/
def eraseUrisObj : List (String × JVal) → List (String × JVal)
  | [] => []
  | (k, v) :: fs =>
    (k, if k = "uri" then .null else eraseUris v) :: eraseUrisObj fs

end

mutual

/-- Collect the string values of every `"uri"` field, in traversal order. -/
def getUris : JVal → List String
  | .obj fields => getUrisObj fields
  | .arr l => getUrisArr l
  | _ => []

/-- `getUris` over an array's elements. -/
def getUrisArr : List JVal → List String
  | [] => []
  | v :: vs => getUris v ++ getUrisArr vs

/-- `getUris` over an object's fields. -/
def getUrisObj : List (String × JVal) → List String
  | [] => []
  | (k, v) :: fs =>
    (if k = "uri" then
      match v with
      | .str s => [s]
      | _ => []
    else getUris v) ++ getUrisObj fs

end

/-- Structural induction for `JVal` with membership hypotheses for the
nested lists. -/
def JVal.strongInd {motive : JVal → Prop}
    (hnull : motive .null) (hbool : ∀ b, motive (.bool b))
    (hnum : ∀ n, motive (.num n)) (hstr : ∀ s, motive (.str s))
    (harr : ∀ l, (∀ v ∈ l, motive v) → motive (.arr l))
    (hobj : ∀ fs, (∀ kv ∈ fs, motive kv.2) → motive (.obj fs)) :
    ∀ v, motive v
  | .null => hnull
  | .bool b => hbool b
  | .num n => hnum n
  | .str s => hstr s
  | .arr l =>
    harr l fun v hv =>
      JVal.strongInd hnull hbool hnum hstr harr hobj v
  | .obj fs =>
    hobj fs fun kv hkv =>
      JVal.strongInd hnull hbool hnum hstr harr hobj kv.2
termination_by v => sizeOf v
decreasing_by
  · have := List.sizeOf_lt_of_mem hv
    simp only [JVal.arr.sizeOf_spec]
    omega
  · have h1 := List.sizeOf_lt_of_mem hkv
    have h2 : sizeOf kv.2 < sizeOf kv := by
      cases kv
      simp
    simp only [JVal.obj.sizeOf_spec]
    omega

end LspProxy
namespace LspProxy

/-- The C2 property of a single value: on well-formed input, rewriting
succeeds, leaves everything but `"uri"` fields identical, and maps exactly
the `"uri"` values through the transform. -/
def UriRewriteOk (t : String → Option String) (v : JVal) : Prop :=
  wellFormedU t v = true →
    ∃ v', rewriteUris t v = some v' ∧ eraseUris v' = eraseUris v ∧
      getUris v' = (getUris v).map fun s => (t s).getD ""

theorem bool_and_split {a b : Bool} (h : (a && b) = true) :
    a = true ∧ b = true := by
  simp only [Bool.and_eq_true] at h
  exact h

theorem c2_arr_aux (t : String → Option String) :
    ∀ l : List JVal, (∀ v ∈ l, UriRewriteOk t v) → wellFormedArr t l = true →
      ∃ l', rewriteUrisArr t l = some l' ∧ eraseUrisArr l' = eraseUrisArr l ∧
        getUrisArr l' = (getUrisArr l).map fun s => (t s).getD "" := by
  intro l
  induction l with
  | nil =>
    intro _ _
    exact ⟨[], rfl, rfl, rfl⟩
  | cons v vs ih =>
    intro hmem hwf
    have hv : wellFormedU t v = true ∧ wellFormedArr t vs = true :=
      bool_and_split (show (wellFormedU t v && wellFormedArr t vs) = true from hwf)
    obtain ⟨v', hv1, hv2, hv3⟩ := hmem v (by simp) hv.1
    obtain ⟨vs', hvs1, hvs2, hvs3⟩ := ih (fun x hx => hmem x (by simp [hx])) hv.2
    refine ⟨v' :: vs', ?_, ?_, ?_⟩
    · simp [rewriteUrisArr, hv1, hvs1]
    · simp [eraseUrisArr, hv2, hvs2]
    · simp [getUrisArr, hv3, hvs3]

theorem wellFormedObj_cons (t : String → Option String) (k : String) (v : JVal)
    (fs : List (String × JVal)) :
    wellFormedObj t ((k, v) :: fs) =
      ((if k = "uri" then
        match v with
        | JVal.str s => (t s).isSome
        | _ => false
      else wellFormedU t v) && wellFormedObj t fs) := rfl

theorem c2_obj_aux (t : String → Option String) :
    ∀ fs : List (String × JVal), (∀ kv ∈ fs, UriRewriteOk t kv.2) →
      wellFormedObj t fs = true →
      ∃ fs', rewriteUrisObj t fs = some fs' ∧ eraseUrisObj fs' = eraseUrisObj fs ∧
        getUrisObj fs' = (getUrisObj fs).map fun s => (t s).getD "" := by
  intro fs
  induction fs with
  | nil =>
    intro _ _
    exact ⟨[], rfl, rfl, rfl⟩
  | cons kv fs ih =>
    obtain ⟨k, v⟩ := kv
    intro hmem hwf
    have hsplit := bool_and_split (wellFormedObj_cons t k v fs ▸ hwf)
    obtain ⟨fs', hfs1, hfs2, hfs3⟩ := ih (fun x hx => hmem x (by simp [hx])) hsplit.2
    by_cases hk : k = "uri"
    · subst hk
      have hv := hsplit.1
      rw [if_pos rfl] at hv
      cases v with
      | str s =>
        obtain ⟨s', hs'⟩ := Option.isSome_iff_exists.1 hv
        refine ⟨("uri", JVal.str s') :: fs', ?_, ?_, ?_⟩
        · show (do
            let v' ← (t s).map JVal.str
            let fs'' ← rewriteUrisObj t fs
            pure (("uri", v') :: fs'')) = some (("uri", JVal.str s') :: fs')
          rw [hs', hfs1]
          rfl
        · show ("uri", JVal.null) :: eraseUrisObj fs' =
            ("uri", JVal.null) :: eraseUrisObj fs
          rw [hfs2]
        · show s' :: getUrisObj fs' = List.map (fun s => (t s).getD "") (s :: getUrisObj fs)
          rw [hfs3, List.map_cons, hs']
          rfl
      | null => exact absurd hv (by simp)
      | bool b => exact absurd hv (by simp)
      | num n => exact absurd hv (by simp)
      | arr l => exact absurd hv (by simp)
      | obj fs2 => exact absurd hv (by simp)
    · have hv : wellFormedU t v = true := by
        have := hsplit.1
        rwa [if_neg hk] at this
      obtain ⟨v', hv1, hv2, hv3⟩ := hmem (k, v) (by simp) hv
      refine ⟨(k, v') :: fs', ?_, ?_, ?_⟩
      · simp [rewriteUrisObj, if_neg hk, hv1, hfs1]
      · simp [eraseUrisObj, if_neg hk, hv2, hfs2]
      · simp [getUrisObj, if_neg hk, hv3, hfs3]

theorem c2_main (t : String → Option String) : ∀ m : JVal, UriRewriteOk t m := by
  intro m
  induction m using JVal.strongInd with
  | hnull => intro _; exact ⟨.null, rfl, rfl, rfl⟩
  | hbool b => intro _; exact ⟨.bool b, rfl, rfl, rfl⟩
  | hnum n => intro _; exact ⟨.num n, rfl, rfl, rfl⟩
  | hstr s => intro _; exact ⟨.str s, rfl, rfl, rfl⟩
  | harr l ih =>
    intro hwf
    have hwf' : wellFormedArr t l = true := hwf
    obtain ⟨l', h1, h2, h3⟩ := c2_arr_aux t l ih hwf'
    refine ⟨.arr l', ?_, ?_, ?_⟩
    · simp [rewriteUris, h1]
    · simp [eraseUris, h2]
    · simp [getUris, h3]
  | hobj fs ih =>
    intro hwf
    have hwf' : wellFormedObj t fs = true :=
      (bool_and_split (show (decide ((fs.map Prod.fst).Nodup) &&
        wellFormedObj t fs) = true from hwf)).2
    obtain ⟨fs', h1, h2, h3⟩ := c2_obj_aux t fs ih hwf'
    refine ⟨.obj fs', ?_, ?_, ?_⟩
    · simp [rewriteUris, h1]
    · simp [eraseUris, h2]
    · simp [getUris, h3]

/-- Claim C2: URI rewriting over a message is total and minimal.  For every
well-formed message (nested objects/arrays with distinct keys whose
`"uri"`-named fields hold strings the transform accepts), `rewriteUris`
never throws, leaves everything outside `"uri"` fields identical
(`eraseUris` is preserved), and replaces exactly the `"uri"` fields, at any
nesting depth, by their transformed values. -/
theorem c2_rewriteUris_total_minimal (t : String → Option String) (m : JVal)
    (hwf : wellFormedU t m = true) :
    ∃ m', rewriteUris t m = some m' ∧ eraseUris m' = eraseUris m ∧
      getUris m' = (getUris m).map fun s => (t s).getD "" :=
  c2_main t m hwf

/-- Witness for `c2_rewriteUris_total_minimal`: a hover-like message with a
nested `textDocument.uri` field and an unrelated `text` field. -/
theorem c2_rewriteUris_witness :
    wellFormedU (fun s => some (s ++ "?rw")) (JVal.obj
      [("method", JVal.str "textDocument/hover"),
       ("params", JVal.obj
         [("textDocument", JVal.obj
            [("uri", JVal.str "https://example.com/repo.zip#src/a.ts"),
             ("text", JVal.str "const x = 1")]),
          ("position", JVal.obj [("line", JVal.num 3)])])]) = true ∧
    ∃ m', rewriteUris (fun s => some (s ++ "?rw")) (JVal.obj
      [("method", JVal.str "textDocument/hover"),
       ("params", JVal.obj
         [("textDocument", JVal.obj
            [("uri", JVal.str "https://example.com/repo.zip#src/a.ts"),
             ("text", JVal.str "const x = 1")]),
          ("position", JVal.obj [("line", JVal.num 3)])])]) = some m' ∧
      eraseUris m' = eraseUris (JVal.obj
      [("method", JVal.str "textDocument/hover"),
       ("params", JVal.obj
         [("textDocument", JVal.obj
            [("uri", JVal.str "https://example.com/repo.zip#src/a.ts"),
             ("text", JVal.str "const x = 1")]),
          ("position", JVal.obj [("line", JVal.num 3)])])]) ∧
      getUris m' = (getUris (JVal.obj
      [("method", JVal.str "textDocument/hover"),
       ("params", JVal.obj
         [("textDocument", JVal.obj
            [("uri", JVal.str "https://example.com/repo.zip#src/a.ts"),
             ("text", JVal.str "const x = 1")]),
          ("position", JVal.obj [("line", JVal.num 3)])])])).map
        fun s => ((fun s => some (s ++ "?rw")) s).getD "" :=
  ⟨by decide, c2_rewriteUris_total_minimal (fun s => some (s ++ "?rw")) _ (by decide)⟩

end LspProxy
namespace LspProxy

/-! ## JSON-RPC message predicates (from `@sourcegraph/vscode-ws-jsonrpc`)

Messages are `JVal`s as delivered by `JSON.parse`, so a field is
`undefined` exactly when its key is absent. -/

/-- JSON-RPC message identifiers: strings or numbers. -/
inductive RpcId where
  | str (s : String)
  | num (n : Int)
deriving DecidableEq, Repr

/-- JS truthiness of a JSON value (`[]` and `{}` are truthy). -/
def truthy : JVal → Bool
  | .null => false
  | .bool b => b
  | .num n => decide (n ≠ 0)
  | .str s => decide (s ≠ "")
  | .arr _ => true
  | .obj _ => true

/-- Property access `v[k]` on a value already known not to be
null/undefined: absent keys and non-objects give `undefined` (`null` in the
model). -/
def tryGet (v : JVal) (k : String) : JVal :=
  match v with
  | .obj fields => (fields.lookup k).getD .null
  | _ => .null

/-- Key presence (`k in v` / `v[k] !== undefined` for JSON-parsed data). -/
def hasKey (v : JVal) (k : String) : Bool :=
  match v with
  | .obj fields => (fields.lookup k).isSome
  | _ => false

/-- Property assignment `v[k] = newV` on an object's field list: overwrite
in place, or append a new key. -/
def setFieldList : List (String × JVal) → String → JVal → List (String × JVal)
  | [], k, newV => [(k, newV)]
  | (k', v') :: fs, k, newV =>
    if k' = k then (k', newV) :: fs else (k', v') :: setFieldList fs k newV

/-- Property assignment `v[k] = newV`; only reached on objects in the
modelled paths. -/
def setField (v : JVal) (k : String) (newV : JVal) : JVal :=
  match v with
  | .obj fields => .obj (setFieldList fields k newV)
  | other => other

/-- The message's `id`, when it is a string or number. -/
def msgId (m : JVal) : Option RpcId :=
  match tryGet m "id" with
  | .str s => some (RpcId.str s)
  | .num n => some (RpcId.num n)
  | _ => none

/-- `isRequestMessage`: truthy, string `method`, string-or-number `id`. -/
def isRequestMessage (m : JVal) : Bool :=
  truthy m &&
    (match tryGet m "method" with | .str _ => true | _ => false) &&
    (msgId m).isSome

/-- `isNotificationMessage`: truthy, string `method`, `id === undefined`
(no `id` key). -/
def isNotificationMessage (m : JVal) : Bool :=
  truthy m &&
    (match tryGet m "method" with | .str _ => true | _ => false) &&
    !(hasKey m "id")

/-- `isResponseMessage`: truthy, has a `result` key or a truthy `error`,
and an `id` that is a string, a number, or the literal `null`. -/
def isResponseMessage (m : JVal) : Bool :=
  truthy m &&
    (hasKey m "result" || truthy (tryGet m "error")) &&
    (match tryGet m "id" with
      | .str _ => true
      | .num _ => true
      | .null => hasKey m "id"
      | _ => false)

/-- Source line 231: `isRequestMessage(message) && message.method ===
'initialize'`. -/
def isInitializeRequest (m : JVal) : Bool :=
  isRequestMessage m &&
    (match tryGet m "method" with | .str s => s == "initialize" | _ => false)

/-! ## Handshake validation (source lines 231–248) -/

/-- Property access on a value that may be null/undefined: `null.k` throws a
TypeError. -/
def jsGet (v : JVal) (k : String) : Except String JVal :=
  match v with
  | .null => .error ("Cannot read properties of null (reading " ++ k ++ ")")
  | .obj fields => .ok ((fields.lookup k).getD .null)
  | _ => .ok .null

/-- JS `v.length` where it exists: arrays and strings. -/
def jsLength : JVal → Option Nat
  | .arr l => some l.length
  | .str s => some s.length
  | _ => none

/-- Suffix test on strings, written via character lists so the kernel can
evaluate it (`String.endsWith` semantics). -/
def strEndsWith (s suffix : String) : Bool :=
  suffix.data.isSuffixOf s.data

/-- `zipRootUri.pathname.endsWith('.zip')` in the segment model: since
`".zip"` contains no `/`, the rendered pathname ends in `".zip"` exactly
when its last segment does. -/
def pathEndsWithZip (p : List String) : Bool :=
  strEndsWith (p.getLast?.getD "") ".zip"

/-- Error message of source line 234. -/
def noRootUriMsg : String := "No rootUri given as initialize parameter"

/-- Error message of source lines 237–239. -/
def tooManyFoldersMsg : String :=
  "More than one workspace folder given. The TypeScript server only supports a single workspace folder."

/-- Source lines 232–248: the validation part of the `initialize`
interception, over the raw `message.params` value.  `parse` models the
WHATWG `new URL(·)` constructor, `none` meaning it throws.  Checks happen in
source order: `!params.rootUri`, then
`params.workspaceFolders && params.workspaceFolders.length > 1`, then URL
parsing, then the `.zip` suffix, then the scheme. -/
def validateInit (parse : String → Option URL) (params : JVal) : Except String URL :=
  match jsGet params "rootUri" with
  | .error e => .error e
  | .ok rootUri =>
    if truthy rootUri = false then .error noRootUriMsg
    else
      match jsGet params "workspaceFolders" with
      | .error e => .error e
      | .ok wf =>
        if truthy wf = true ∧ 1 < (jsLength wf).getD 0 then .error tooManyFoldersMsg
        else
          match rootUri with
          | .str s =>
            match parse s with
            | some zipRootUri =>
              if pathEndsWithZip zipRootUri.pathname = false then
                .error "rootUri must end with .zip"
              else if zipRootUri.protocol ≠ "http:" ∧ zipRootUri.protocol ≠ "https:" then
                .error "Protocol must be http or https"
              else .ok zipRootUri
            | none => .error "Invalid URL"
          | _ => .error "Invalid URL"

/-! ## The session engine (source lines 148–382) -/

/-- The per-connection mutable session variables the message handlers read:
whether the language-server worker process has been spawned, the three
address-space variables (unset before a successful handshake), and the
pending-request span map, modelled by its key list. -/
structure SessionState where
  workerSpawned : Bool
  zipRootUri : Option URL
  extractPath : Option (List String)
  fileRootUri : Option URL
  requestSpans : List RpcId
deriving Repr

/-- The state right after `webSocketServer.on('connection')` runs: the
worker process is spawned eagerly by `rpcServer.createServerProcess`
(source lines 168–174), before any message — in particular before the
handshake — while the address-space variables are still unset. -/
def initialSessionState : SessionState :=
  { workerSpawned := true, zipRootUri := none, extractPath := none,
    fileRootUri := none, requestSpans := [] }

/-- `requestSpans.set(id, span)` on the key set: adding a key that is
already present replaces its span and leaves the key set unchanged. -/
def insertSpan (i : RpcId) (spans : List RpcId) : List RpcId :=
  if i ∈ spans then spans else i :: spans

/-- Source lines 210–225: a span is started for requests and notifications,
and registered in `requestSpans` keyed by `message.id` for requests. -/
def spanUpdate (spans : List RpcId) (message : JVal) : List RpcId :=
  if isRequestMessage message then
    match msgId message with
    | some i => insertSpan i spans
    | none => spans
  else spans

/-- Render a path the way the session's `extractPath` string reads. -/
def renderPath (p : List String) : String :=
  "/" ++ String.intercalate "/" p

/-- The string-level client→worker transform inside `rewriteUris`:
`uri => transformZipToFileUri(new URL(uri)).href`.  Parsing happens first
(its failure throws); with `fileRootUri` still unset, the transform body
itself throws (`new URL(fileRootUri.href)` on `undefined`). -/
def clientTransformStr (parse : String → Option URL) (fileRootUri : Option URL)
    (s : String) : Option String :=
  (parse s).bind fun u =>
    match fileRootUri with
    | none => none
    | some fr => some (hrefOf (transformZipToFileUri fr u))

/-- The string-level worker→client transform inside `rewriteUris`:
`uri => transformFileToZipUri(new URL(uri)).href`.  `fileURLToPath` runs
first and throws on non-file URLs; afterwards the body reads `zipRootUri`
and `extractPath`, throwing when they are still unset. -/
def serverTransformStr (parse : String → Option URL) (zipRootUri : Option URL)
    (extractPath : Option (List String)) (s : String) : Option String :=
  (parse s).bind fun u =>
    (fileURLToPath u).bind fun _ =>
      match zipRootUri, extractPath with
      | some z, some e => (transformFileToZipUri z e u).map hrefOf
      | _, _ => none

/-- Source lines 231–335: the `initialize` interception.  On a validated
handshake, materialization (temp dirs, download, extraction, dependency
installation) either fails — modelled by the `mat` outcome — or yields the
extraction path; on success the session variables are set and the handshake
params are rewritten in place (`rootUri`, `rootPath`, `workspaceFolders`).
The intermediate session-variable assignments of a failed handshake are not
modelled. -/
def interceptInitialize (parse : String → Option URL)
    (mat : Except String (List String)) (st : SessionState) (message : JVal) :
    Except String (SessionState × JVal) :=
  if isInitializeRequest message then
    match validateInit parse (tryGet message "params") with
    | .error e => .error e
    | .ok zipRootUri =>
      match mat with
      | .error e => .error e
      | .ok extractPath =>
        let fileRootUri := pathToFileURL extractPath
        let params2 :=
          setField (setField (setField (tryGet message "params")
            "rootUri" (.str (hrefOf fileRootUri)))
            "rootPath" (.str (renderPath extractPath)))
            "workspaceFolders"
            (.arr [.obj [("name", .str ""), ("uri", .str (hrefOf fileRootUri))]])
        let st2 : SessionState :=
          { workerSpawned := st.workerSpawned, zipRootUri := some zipRootUri,
            extractPath := some extractPath, fileRootUri := some fileRootUri,
            requestSpans := st.requestSpans }
        .ok (st2, setField message "params" params2)
  else .ok (st, message)

/-- Error message reported when `rewriteUris` throws inside the handler. -/
def rewriteErrMsg : String := "Error rewriting URIs"

/-- What one client→worker handler invocation produces: the session state
afterwards, the message written to the worker (if any), and the error
response written back to the client (if any). -/
structure ClientStepResult where
  state : SessionState
  forwarded : Option JVal
  errorResponse : Option (RpcId × String)
deriving Repr

/-- Source lines 209–362: the `webSocketReader.listen` handler for one
client message.  Span bookkeeping happens first; the try-block intercepts
`initialize`, rewrites all `uri` fields through the archive→filesystem
rule, and forwards to the worker; the catch-block answers requests with an
error response carrying the failure's message and logs everything else. -/
def stepClientMessage (parse : String → Option URL)
    (mat : Except String (List String)) (st : SessionState) (message : JVal) :
    ClientStepResult :=
  let st1 := { st with requestSpans := spanUpdate st.requestSpans message }
  match interceptInitialize parse mat st1 message with
  | .error e =>
    ⟨st1, none,
      if isRequestMessage message then (msgId message).map fun i => (i, e) else none⟩
  | .ok (st2, msg2) =>
    match rewriteUris (clientTransformStr parse st2.fileRootUri) msg2 with
    | some msg3 => ⟨st2, some msg3, none⟩
    | none =>
      ⟨st2, none,
        if isRequestMessage message then (msgId message).map fun i => (i, rewriteErrMsg)
        else none⟩

/-- What one worker→client forward invocation produces. -/
structure ServerStepResult where
  requestSpans : List RpcId
  forwarded : Option JVal
deriving Repr

/-- Source lines 364–382: the worker→client `forward` mapper.  For a
response whose `id` is not `null`, the matching pending span (if any) is
finished and deleted; then all `uri` fields are rewritten through the
filesystem→archive rule.  A rewrite failure throws inside the mapper, so no
message reaches the client. -/
def stepServerMessage (parse : String → Option URL) (st : SessionState)
    (message : JVal) : ServerStepResult :=
  let spans :=
    if isResponseMessage message then
      match msgId message with
      | some i => st.requestSpans.erase i
      | none => st.requestSpans
    else st.requestSpans
  ⟨spans, rewriteUris (serverTransformStr parse st.zipRootUri st.extractPath) message⟩

mutual

/-- Whether any object anywhere in the value has a `"uri"` key. -/
def hasUriField : JVal → Bool
  | .obj fields => hasUriObj fields
  | .arr l => hasUriArr l
  | _ => false

/-- `hasUriField` over an array's elements. -/
def hasUriArr : List JVal → Bool
  | [] => false
  | v :: vs => hasUriField v || hasUriArr vs

/-- A `"uri"` key in this object, or a `"uri"` field anywhere below. -/
def hasUriObj : List (String × JVal) → Bool
  | [] => false
  | (k, v) :: fs => k == "uri" || hasUriField v || hasUriObj fs

end

end LspProxy
namespace LspProxy

theorem bool_or_false {a b : Bool} (h : (a || b) = false) :
    a = false ∧ b = false := by
  simp only [Bool.or_eq_false_iff] at h
  exact h

theorem rewriteUris_no_uri_arr (t : String → Option String) :
    ∀ l : List JVal,
      (∀ v ∈ l, hasUriField v = false → rewriteUris t v = some v) →
      hasUriArr l = false → rewriteUrisArr t l = some l := by
  intro l
  induction l with
  | nil => intro _ _; rfl
  | cons v vs ih =>
    intro hmem h
    obtain ⟨hv, hvs⟩ := bool_or_false (show (hasUriField v || hasUriArr vs) = false from h)
    have h1 := hmem v (by simp) hv
    have h2 := ih (fun x hx => hmem x (by simp [hx])) hvs
    show (do
      let v' ← rewriteUris t v
      let vs' ← rewriteUrisArr t vs
      pure (v' :: vs')) = some (v :: vs)
    rw [h1, h2]
    rfl

theorem rewriteUrisObj_cons (t : String → Option String) (k : String) (v : JVal)
    (fs : List (String × JVal)) :
    rewriteUrisObj t ((k, v) :: fs) = (do
      let v' ← if k = "uri" then
          match v with
          | JVal.str s => (t s).map JVal.str
          | _ => none
        else rewriteUris t v
      let fs' ← rewriteUrisObj t fs
      pure ((k, v') :: fs')) := rfl

theorem hasUriObj_cons (k : String) (v : JVal) (fs : List (String × JVal)) :
    hasUriObj ((k, v) :: fs) = ((k == "uri" || hasUriField v) || hasUriObj fs) := rfl

theorem rewriteUris_no_uri_obj (t : String → Option String) :
    ∀ fs : List (String × JVal),
      (∀ kv ∈ fs, hasUriField kv.2 = false → rewriteUris t kv.2 = some kv.2) →
      hasUriObj fs = false → rewriteUrisObj t fs = some fs := by
  intro fs
  induction fs with
  | nil => intro _ _; rfl
  | cons kv fs ih =>
    obtain ⟨k, v⟩ := kv
    intro hmem h
    rw [hasUriObj_cons] at h
    have hsplit := bool_or_false h
    obtain ⟨hk0, hv⟩ := bool_or_false hsplit.1
    have hfs := hsplit.2
    have hk : ¬ k = "uri" := by simpa using hk0
    have h1 := hmem (k, v) (by simp) hv
    have h2 := ih (fun x hx => hmem x (by simp [hx])) hfs
    rw [rewriteUrisObj_cons, if_neg hk, h1, h2]
    rfl

/-- A value with no `uri` fields anywhere passes through `rewriteUris`
untouched, whatever the transform. -/
theorem rewriteUris_no_uri (t : String → Option String) :
    ∀ m : JVal, hasUriField m = false → rewriteUris t m = some m := by
  intro m
  induction m using JVal.strongInd with
  | hnull => intro _; rfl
  | hbool b => intro _; rfl
  | hnum n => intro _; rfl
  | hstr s => intro _; rfl
  | harr l ih =>
    intro h
    have := rewriteUris_no_uri_arr t l ih (show hasUriArr l = false from h)
    show (rewriteUrisArr t l).map JVal.arr = some (JVal.arr l)
    rw [this]
    rfl
  | hobj fs ih =>
    intro h
    have := rewriteUris_no_uri_obj t fs ih (show hasUriObj fs = false from h)
    show (rewriteUrisObj t fs).map JVal.obj = some (JVal.obj fs)
    rw [this]
    rfl

theorem rewriteUris_none_arr (t : String → Option String) (ht : ∀ s, t s = none) :
    ∀ l : List JVal,
      (∀ v ∈ l, hasUriField v = true → rewriteUris t v = none) →
      hasUriArr l = true → rewriteUrisArr t l = none := by
  intro l
  induction l with
  | nil => intro _ h; exact absurd h (by simp [hasUriArr])
  | cons v vs ih =>
    intro hmem h
    show (do
      let v' ← rewriteUris t v
      let vs' ← rewriteUrisArr t vs
      pure (v' :: vs')) = none
    rcases Bool.or_eq_true_iff.1 (show (hasUriField v || hasUriArr vs) = true from h) with hv | hvs
    · rw [hmem v (by simp) hv]
      rfl
    · cases hrv : rewriteUris t v with
      | none => rfl
      | some v' =>
        rw [ih (fun x hx => hmem x (by simp [hx])) hvs]
        rfl

theorem rewriteUris_none_obj (t : String → Option String) (ht : ∀ s, t s = none) :
    ∀ fs : List (String × JVal),
      (∀ kv ∈ fs, hasUriField kv.2 = true → rewriteUris t kv.2 = none) →
      hasUriObj fs = true → rewriteUrisObj t fs = none := by
  intro fs
  induction fs with
  | nil => intro _ h; exact absurd h (by simp [hasUriObj])
  | cons kv fs ih =>
    obtain ⟨k, v⟩ := kv
    intro hmem h
    rw [hasUriObj_cons] at h
    rw [rewriteUrisObj_cons]
    by_cases hk' : k = "uri"
    · rw [if_pos hk']
      cases v with
      | str s =>
        show (do
          let y ← Option.map JVal.str (t s)
          let fs' ← rewriteUrisObj t fs
          pure ((k, y) :: fs')) = none
        rw [ht s]
        rfl
      | null => rfl
      | bool b => rfl
      | num n => rfl
      | arr l => rfl
      | obj fs2 => rfl
    · rw [if_neg hk']
      have hrest : (hasUriField v || hasUriObj fs) = true := by
        rcases Bool.or_eq_true_iff.1 h with h1 | h1
        · rcases Bool.or_eq_true_iff.1 h1 with h2 | h2
          · exact absurd (by simpa using h2) hk'
          · simp [h2]
        · simp [h1]
      rcases Bool.or_eq_true_iff.1 hrest with hv | hfs
      · rw [hmem (k, v) (by simp) hv]
        rfl
      · cases hrv : rewriteUris t v with
        | none => rfl
        | some v' =>
          rw [ih (fun x hx => hmem x (by simp [hx])) hfs]
          rfl

/-- When the transform always throws (as it does before the handshake sets
the session roots), any value containing a `uri` field makes `rewriteUris`
throw. -/
theorem rewriteUris_none_of_uri (t : String → Option String) (ht : ∀ s, t s = none) :
    ∀ m : JVal, hasUriField m = true → rewriteUris t m = none := by
  intro m
  induction m using JVal.strongInd with
  | hnull => intro h; exact absurd h (by simp [hasUriField])
  | hbool b => intro h; exact absurd h (by simp [hasUriField])
  | hnum n => intro h; exact absurd h (by simp [hasUriField])
  | hstr s => intro h; exact absurd h (by simp [hasUriField])
  | harr l ih =>
    intro h
    have := rewriteUris_none_arr t ht l ih (show hasUriArr l = true from h)
    show (rewriteUrisArr t l).map JVal.arr = none
    rw [this]
    rfl
  | hobj fs ih =>
    intro h
    have := rewriteUris_none_obj t ht fs ih (show hasUriObj fs = true from h)
    show (rewriteUrisObj t fs).map JVal.obj = none
    rw [this]
    rfl

/-- Before the handshake, the client-side transform throws on every URI
(`fileRootUri` is still `undefined`). -/
theorem clientTransformStr_none (parse : String → Option URL) (s : String) :
    clientTransformStr parse none s = none := by
  unfold clientTransformStr
  cases parse s <;> rfl

theorem interceptInitialize_not_init (parse : String → Option URL)
    (mat : Except String (List String)) (st : SessionState) (message : JVal)
    (h : isInitializeRequest message = false) :
    interceptInitialize parse mat st message = .ok (st, message) := by
  unfold interceptInitialize
  rw [h]
  rfl

theorem interceptInitialize_spans (parse : String → Option URL)
    (mat : Except String (List String)) (st : SessionState) (message : JVal)
    (st2 : SessionState) (msg2 : JVal)
    (h : interceptInitialize parse mat st message = .ok (st2, msg2)) :
    st2.requestSpans = st.requestSpans ∧ st2.workerSpawned = st.workerSpawned := by
  unfold interceptInitialize at h
  by_cases hb : isInitializeRequest message = true
  · rw [if_pos hb] at h
    cases hval : validateInit parse (tryGet message "params") with
    | error e =>
      rw [hval] at h
      exact absurd h (by simp)
    | ok u =>
      rw [hval] at h
      cases mat with
      | error e => exact absurd h (by simp)
      | ok extractPath =>
        simp only [Except.ok.injEq, Prod.mk.injEq] at h
        obtain ⟨h1, _⟩ := h
        rw [← h1]
        exact ⟨rfl, rfl⟩
  · rw [if_neg hb] at h
    simp only [Except.ok.injEq, Prod.mk.injEq] at h
    obtain ⟨h1, _⟩ := h
    rw [← h1]
    exact ⟨rfl, rfl⟩

end LspProxy
namespace LspProxy

theorem mem_insertSpan (i : RpcId) (spans : List RpcId) : i ∈ insertSpan i spans := by
  unfold insertSpan
  split
  · assumption
  · exact List.mem_cons_self i spans

theorem insertSpan_mono {j : RpcId} {spans : List RpcId} (h : j ∈ spans)
    (i : RpcId) : j ∈ insertSpan i spans := by
  unfold insertSpan
  split
  · exact h
  · exact List.mem_cons_of_mem i h

theorem spanUpdate_mono {j : RpcId} {spans : List RpcId} (h : j ∈ spans)
    (message : JVal) : j ∈ spanUpdate spans message := by
  unfold spanUpdate
  split
  · cases msgId message with
    | some i => exact insertSpan_mono h i
    | none => exact h
  · exact h

theorem stepClient_state (parse : String → Option URL)
    (mat : Except String (List String)) (st : SessionState) (message : JVal) :
    (stepClientMessage parse mat st message).state.requestSpans =
      spanUpdate st.requestSpans message ∧
    (stepClientMessage parse mat st message).state.workerSpawned = st.workerSpawned := by
  cases hint : interceptInitialize parse mat
      { st with requestSpans := spanUpdate st.requestSpans message } message with
  | error e =>
    have hred : stepClientMessage parse mat st message =
        ClientStepResult.mk
          { st with requestSpans := spanUpdate st.requestSpans message } none
          (if isRequestMessage message then (msgId message).map fun i => (i, e)
            else none) := by
      simp only [stepClientMessage]
      rw [hint]
    rw [hred]
    exact ⟨rfl, rfl⟩
  | ok p =>
    obtain ⟨st2, msg2⟩ := p
    obtain ⟨hsp, hws⟩ := interceptInitialize_spans parse mat _ message st2 msg2 hint
    have hred : stepClientMessage parse mat st message =
        (match rewriteUris (clientTransformStr parse st2.fileRootUri) msg2 with
          | some msg3 => ClientStepResult.mk st2 (some msg3) none
          | none => ClientStepResult.mk st2 none
              (if isRequestMessage message then
                (msgId message).map fun i => (i, rewriteErrMsg)
              else none)) := by
      simp only [stepClientMessage]
      rw [hint]
    rw [hred]
    cases hrw : rewriteUris (clientTransformStr parse st2.fileRootUri) msg2 with
    | some msg3 => exact ⟨hsp, hws⟩
    | none => exact ⟨hsp, hws⟩

theorem tryGet_obj (fields : List (String × JVal)) (k : String) :
    tryGet (JVal.obj fields) k = (fields.lookup k).getD JVal.null := rfl

theorem hasKey_obj (fields : List (String × JVal)) (k : String) :
    hasKey (JVal.obj fields) k = (fields.lookup k).isSome := rfl

theorem msgId_eq (m : JVal) :
    msgId m = (match tryGet m "id" with
      | JVal.str s => some (RpcId.str s)
      | JVal.num n => some (RpcId.num n)
      | _ => none) := rfl

theorem isNotification_not_request {m : JVal}
    (h : isNotificationMessage m = true) : isRequestMessage m = false := by
  have hid : hasKey m "id" = false := by
    have h3 := (bool_and_split h).2
    simpa using h3
  have hmsg : msgId m = none := by
    cases m with
    | obj fields =>
      rw [hasKey_obj] at hid
      have hlook : fields.lookup "id" = none := by
        cases hl : fields.lookup "id" with
        | none => rfl
        | some v =>
          rw [hl] at hid
          simp at hid
      rw [msgId_eq, tryGet_obj, hlook]
      rfl
    | null => rfl
    | bool b => rfl
    | num n => rfl
    | str s => rfl
    | arr l => rfl
  unfold isRequestMessage
  rw [hmsg]
  simp

theorem stepServer_spans (parse : String → Option URL) (st : SessionState)
    (message : JVal) :
    (stepServerMessage parse st message).requestSpans =
      (if isResponseMessage message then
        match msgId message with
        | some i => st.requestSpans.erase i
        | none => st.requestSpans
      else st.requestSpans) := rfl

/-- Claim C9: span correlation.  (1) After a client request with identifier
`i` is processed, the pending-span map contains a key `i`; (2) the
client→worker direction never removes pending keys; (3) notifications leave
the pending map unchanged; (4) a worker→client response with identifier `i`
removes exactly the entry `i` (when the pending keys are distinct, as the
map guarantees); (5) non-responses, and responses with a `null` identifier,
remove nothing. -/
theorem c9_span_correlation (parse : String → Option URL)
    (mat : Except String (List String)) (st : SessionState) :
    (∀ (message : JVal) (i : RpcId), isRequestMessage message = true →
      msgId message = some i →
      i ∈ (stepClientMessage parse mat st message).state.requestSpans) ∧
    (∀ (message : JVal) (j : RpcId), j ∈ st.requestSpans →
      j ∈ (stepClientMessage parse mat st message).state.requestSpans) ∧
    (∀ message : JVal, isNotificationMessage message = true →
      (stepClientMessage parse mat st message).state.requestSpans =
        st.requestSpans) ∧
    (∀ (message : JVal) (i : RpcId), st.requestSpans.Nodup →
      isResponseMessage message = true → msgId message = some i →
      i ∉ (stepServerMessage parse st message).requestSpans ∧
      ∀ j : RpcId, j ≠ i →
        (j ∈ (stepServerMessage parse st message).requestSpans ↔
          j ∈ st.requestSpans)) ∧
    (∀ message : JVal, isResponseMessage message = false ∨ msgId message = none →
      (stepServerMessage parse st message).requestSpans = st.requestSpans) := by
  refine ⟨?_, ?_, ?_, ?_, ?_⟩
  · intro message i hreq hid
    rw [(stepClient_state parse mat st message).1]
    unfold spanUpdate
    rw [hreq, if_pos rfl, hid]
    exact mem_insertSpan i st.requestSpans
  · intro message j hj
    rw [(stepClient_state parse mat st message).1]
    exact spanUpdate_mono hj message
  · intro message hnot
    rw [(stepClient_state parse mat st message).1]
    unfold spanUpdate
    rw [isNotification_not_request hnot]
    simp
  · intro message i hnodup hresp hid
    rw [stepServer_spans, if_pos hresp, hid]
    constructor
    · exact hnodup.not_mem_erase
    · intro j hji
      exact List.mem_erase_of_ne hji
  · intro message h
    rw [stepServer_spans]
    rcases h with h | h
    · rw [if_neg (by simp [h])]
    · by_cases hresp : isResponseMessage message = true
      · rw [if_pos hresp, h]
      · rw [if_neg (by simpa using hresp)]

/-- Witness for `c9_span_correlation`: a concrete request with identifier 7
lands in the pending map; the matching response removes it. -/
theorem c9_span_correlation_witness :
    (RpcId.num 7 ∈ (stepClientMessage (fun _ => none) (Except.error "m")
      initialSessionState
      (JVal.obj [("jsonrpc", JVal.str "2.0"), ("id", JVal.num 7),
        ("method", JVal.str "textDocument/hover")])).state.requestSpans) ∧
    (RpcId.num 7 ∉ (stepServerMessage (fun _ => none)
      { workerSpawned := true, zipRootUri := none, extractPath := none,
        fileRootUri := none, requestSpans := [RpcId.num 7] }
      (JVal.obj [("jsonrpc", JVal.str "2.0"), ("id", JVal.num 7),
        ("result", JVal.null)])).requestSpans) := by
  constructor
  · exact (c9_span_correlation (fun _ => none) (Except.error "m")
      initialSessionState).1
      (JVal.obj [("jsonrpc", JVal.str "2.0"), ("id", JVal.num 7),
        ("method", JVal.str "textDocument/hover")])
      (RpcId.num 7) (by decide) (by decide)
  · exact ((c9_span_correlation (fun _ => none) (Except.error "m")
      { workerSpawned := true, zipRootUri := none, extractPath := none,
        fileRootUri := none, requestSpans := [RpcId.num 7] }).2.2.2.1
      (JVal.obj [("jsonrpc", JVal.str "2.0"), ("id", JVal.num 7),
        ("result", JVal.null)])
      (RpcId.num 7) (by decide) (by decide) (by decide)).1

end LspProxy
namespace LspProxy

theorem isInitialize_isRequest {m : JVal} (h : isInitializeRequest m = true) :
    isRequestMessage m = true :=
  (bool_and_split h).1

/-- The archive root used by the concrete session scenarios:
`https://example.com/repo.zip`. -/
def exampleZipRoot : URL :=
  { protocol := "https:", host := "example.com", pathname := ["repo.zip"], hash := [] }

/-- The extraction root used by the concrete session scenarios: `/tmp/e`. -/
def exampleExtractPath : List String := ["tmp", "e"]

/-- A concrete model of `new URL(·)` for the handful of address strings the
scenarios mention. -/
def exampleParse : String → Option URL := fun s =>
  if s = "https://example.com/repo.zip" then some exampleZipRoot
  else if s = "file:///tmp/e" then some (pathToFileURL exampleExtractPath)
  else if s = "https://evil.example/outside" then
    some { protocol := "https:", host := "evil.example", pathname := ["outside"], hash := [] }
  else none

/-- A concrete `initialize` request with `id` 0 and only a `rootUri`. -/
def exampleInitMsg : JVal :=
  JVal.obj [("jsonrpc", JVal.str "2.0"), ("id", JVal.num 0),
    ("method", JVal.str "initialize"),
    ("params", JVal.obj [("rootUri", JVal.str "https://example.com/repo.zip")])]

/-- Claim C4: for a session whose materialization fails the worker is never
started.  As stated this is FALSE: `rpcServer.createServerProcess` runs in
the connection handler (source lines 168–174), before any message, so the
worker is already spawned when the handshake below fails with a download
error — even though the failure is correctly turned into a handshake error
response and nothing is forwarded. -/
theorem c4_counterexample :
    initialSessionState.workerSpawned = true ∧
    (stepClientMessage exampleParse (Except.error "Fetch failed")
      initialSessionState exampleInitMsg).errorResponse =
      some (RpcId.num 0, "Fetch failed") ∧
    (stepClientMessage exampleParse (Except.error "Fetch failed")
      initialSessionState exampleInitMsg).forwarded = none ∧
    (stepClientMessage exampleParse (Except.error "Fetch failed")
      initialSessionState exampleInitMsg).state.workerSpawned = true :=
  ⟨rfl, rfl, rfl, rfl⟩

/-- Claim C4 (amended): when a session's workspace materialization fails
(after the handshake itself validates), the failure is returned as a
handshake error response carrying the materialization error, and the
handshake message is never forwarded to the worker; the worker process
itself, however, is spawned at connection time, before the handshake, and
its spawned-state is unaffected by the failure. -/
theorem c4_materialization_failure_amended (parse : String → Option URL)
    (st : SessionState) (message : JVal) (e : String) (u : URL) (i : RpcId)
    (hinit : isInitializeRequest message = true)
    (hval : validateInit parse (tryGet message "params") = Except.ok u)
    (hid : msgId message = some i) :
    (stepClientMessage parse (Except.error e) st message).forwarded = none ∧
    (stepClientMessage parse (Except.error e) st message).errorResponse =
      some (i, e) ∧
    (stepClientMessage parse (Except.error e) st message).state.workerSpawned =
      st.workerSpawned ∧
    initialSessionState.workerSpawned = true := by
  have hint : interceptInitialize parse (Except.error e)
      { st with requestSpans := spanUpdate st.requestSpans message } message =
      Except.error e := by
    unfold interceptInitialize
    rw [if_pos hinit, hval]
  have hred : stepClientMessage parse (Except.error e) st message =
      ClientStepResult.mk
        { st with requestSpans := spanUpdate st.requestSpans message } none
        (if isRequestMessage message then (msgId message).map fun i => (i, e)
          else none) := by
    simp only [stepClientMessage]
    rw [hint]
  rw [hred]
  refine ⟨rfl, ?_, rfl, rfl⟩
  show (if isRequestMessage message then (msgId message).map fun i => (i, e)
    else none) = some (i, e)
  rw [if_pos (isInitialize_isRequest hinit), hid]
  rfl

/-- Witness for `c4_materialization_failure_amended`: the concrete failing
download session. -/
theorem c4_materialization_failure_witness :
    validateInit exampleParse (tryGet exampleInitMsg "params") =
      Except.ok exampleZipRoot ∧
    (stepClientMessage exampleParse (Except.error "ECONNRESET")
      initialSessionState exampleInitMsg).forwarded = none ∧
    (stepClientMessage exampleParse (Except.error "ECONNRESET")
      initialSessionState exampleInitMsg).errorResponse =
      some (RpcId.num 0, "ECONNRESET") := by
  refine ⟨rfl, ?_, ?_⟩
  · exact (c4_materialization_failure_amended exampleParse initialSessionState
      exampleInitMsg "ECONNRESET" exampleZipRoot (RpcId.num 0)
      (by decide) rfl rfl).1
  · exact (c4_materialization_failure_amended exampleParse initialSessionState
      exampleInitMsg "ECONNRESET" exampleZipRoot (RpcId.num 0)
      (by decide) rfl rfl).2.1

end LspProxy
namespace LspProxy

theorem jsGet_obj (fields : List (String × JVal)) (k : String) :
    jsGet (JVal.obj fields) k = .ok ((fields.lookup k).getD JVal.null) := rfl

/-- A concrete `initialize` request whose `workspaceFolders` is the empty
array. -/
def exampleInitMsgZeroFolders : JVal :=
  JVal.obj [("jsonrpc", JVal.str "2.0"), ("id", JVal.num 0),
    ("method", JVal.str "initialize"),
    ("params", JVal.obj [("rootUri", JVal.str "https://example.com/repo.zip"),
      ("workspaceFolders", JVal.arr [])])]

/-- Claim C6: a handshake is accepted only when `workspaceFolders` has
exactly one entry, zero folders being rejected too.  As stated this is
FALSE: the code only checks `params.workspaceFolders.length > 1`, and an
empty array is truthy in JS, so a handshake with zero workspace folders
passes validation, materializes, and reaches the worker. -/
theorem c6_counterexample :
    validateInit exampleParse (tryGet exampleInitMsgZeroFolders "params") =
      Except.ok exampleZipRoot ∧
    (stepClientMessage exampleParse (Except.ok exampleExtractPath)
      initialSessionState exampleInitMsgZeroFolders).errorResponse = none ∧
    ((stepClientMessage exampleParse (Except.ok exampleExtractPath)
      initialSessionState exampleInitMsgZeroFolders).forwarded).isSome = true :=
  ⟨rfl, rfl, rfl⟩

theorem c6_folders_gt1_rejected (parse : String → Option URL) (params : JVal)
    (l : List JVal) (hroot : truthy (tryGet params "rootUri") = true)
    (hwf : tryGet params "workspaceFolders" = JVal.arr l)
    (hlen : 1 < l.length) :
    validateInit parse params = Except.error tooManyFoldersMsg := by
  cases params with
  | obj fields =>
    rw [tryGet_obj] at hroot hwf
    unfold validateInit
    simp only [jsGet]
    rw [if_neg (by simp [hroot])]
    rw [hwf]
    rw [if_pos ⟨rfl, by simpa [jsLength] using hlen⟩]
  | null => exact absurd hroot (by simp [tryGet, truthy])
  | bool b => exact absurd hroot (by simp [tryGet, truthy])
  | num n => exact absurd hroot (by simp [tryGet, truthy])
  | str s => exact absurd hroot (by simp [tryGet, truthy])
  | arr a => exact absurd hroot (by simp [tryGet, truthy])

theorem stepClient_validate_error (parse : String → Option URL)
    (mat : Except String (List String)) (st : SessionState) (message : JVal)
    (e : String) (i : RpcId)
    (hinit : isInitializeRequest message = true)
    (hval : validateInit parse (tryGet message "params") = Except.error e)
    (hid : msgId message = some i) :
    (stepClientMessage parse mat st message).forwarded = none ∧
    (stepClientMessage parse mat st message).errorResponse = some (i, e) := by
  have hint : interceptInitialize parse mat
      { st with requestSpans := spanUpdate st.requestSpans message } message =
      Except.error e := by
    unfold interceptInitialize
    rw [if_pos hinit, hval]
  have hred : stepClientMessage parse mat st message =
      ClientStepResult.mk
        { st with requestSpans := spanUpdate st.requestSpans message } none
        (if isRequestMessage message then (msgId message).map fun i => (i, e)
          else none) := by
    simp only [stepClientMessage]
    rw [hint]
  rw [hred]
  refine ⟨rfl, ?_⟩
  show (if isRequestMessage message then (msgId message).map fun i => (i, e)
    else none) = some (i, e)
  rw [if_pos (isInitialize_isRequest hinit), hid]
  rfl

theorem c6_folders_le1_accepted (parse : String → Option URL) (params : JVal)
    (l : List JVal) (hwf : tryGet params "workspaceFolders" = JVal.arr l)
    (hlen : l.length ≤ 1) :
    validateInit parse params ≠ Except.error tooManyFoldersMsg := by
  intro heq
  cases params with
  | obj fields =>
    rw [tryGet_obj] at hwf
    unfold validateInit at heq
    simp only [jsGet] at heq
    rw [hwf] at heq
    split at heq
    · injection heq with h'
      exact absurd h' (by decide)
    · split at heq
      · rename_i hcond
        obtain ⟨_, hgt⟩ := hcond
        simp only [jsLength, Option.getD_some] at hgt
        omega
      · split at heq
        · split at heq
          · split at heq
            · injection heq with h'
              exact absurd h' (by decide)
            · split at heq
              · injection heq with h'
                exact absurd h' (by decide)
              · exact Except.noConfusion heq
          · injection heq with h'
            exact absurd h' (by decide)
        · injection heq with h'
          exact absurd h' (by decide)
  | null => exact absurd hwf (by simp [tryGet])
  | bool b => exact absurd hwf (by simp [tryGet])
  | num n => exact absurd hwf (by simp [tryGet])
  | str s => exact absurd hwf (by simp [tryGet])
  | arr a => exact absurd hwf (by simp [tryGet])

/-- Claim C6 (amended): a handshake with a present `workspaceFolders` is
rejected (error response, never forwarded to the worker) exactly when it
carries TWO OR MORE workspace folders; zero folders and one folder pass the
folder-count check — the code checks only `length > 1`. -/
theorem c6_workspace_folders_amended :
    (∀ (parse : String → Option URL) (params : JVal) (l : List JVal),
      truthy (tryGet params "rootUri") = true →
      tryGet params "workspaceFolders" = JVal.arr l → 1 < l.length →
      validateInit parse params = Except.error tooManyFoldersMsg) ∧
    (∀ (parse : String → Option URL) (mat : Except String (List String))
      (st : SessionState) (message : JVal) (l : List JVal) (i : RpcId),
      isInitializeRequest message = true →
      truthy (tryGet (tryGet message "params") "rootUri") = true →
      tryGet (tryGet message "params") "workspaceFolders" = JVal.arr l →
      1 < l.length → msgId message = some i →
      (stepClientMessage parse mat st message).forwarded = none ∧
      (stepClientMessage parse mat st message).errorResponse =
        some (i, tooManyFoldersMsg)) ∧
    (∀ (parse : String → Option URL) (params : JVal) (l : List JVal),
      tryGet params "workspaceFolders" = JVal.arr l → l.length ≤ 1 →
      validateInit parse params ≠ Except.error tooManyFoldersMsg) := by
  refine ⟨c6_folders_gt1_rejected, ?_, c6_folders_le1_accepted⟩
  intro parse mat st message l i hinit hroot hwf hlen hid
  exact stepClient_validate_error parse mat st message tooManyFoldersMsg i hinit
    (c6_folders_gt1_rejected parse (tryGet message "params") l hroot hwf hlen) hid

/-- Witness for `c6_workspace_folders_amended`: a handshake with two
workspace folders is rejected with the folder error; one with zero folders
is not rejected by the folder check. -/
theorem c6_workspace_folders_witness :
    validateInit exampleParse
      (JVal.obj [("rootUri", JVal.str "https://example.com/repo.zip"),
        ("workspaceFolders", JVal.arr [JVal.obj [("uri", JVal.str "a")],
          JVal.obj [("uri", JVal.str "b")]])]) =
      Except.error tooManyFoldersMsg ∧
    validateInit exampleParse
      (JVal.obj [("rootUri", JVal.str "https://example.com/repo.zip"),
        ("workspaceFolders", JVal.arr [])]) ≠
      Except.error tooManyFoldersMsg := by
  constructor
  · exact (c6_workspace_folders_amended).1 exampleParse
      (JVal.obj [("rootUri", JVal.str "https://example.com/repo.zip"),
        ("workspaceFolders", JVal.arr [JVal.obj [("uri", JVal.str "a")],
          JVal.obj [("uri", JVal.str "b")]])])
      [JVal.obj [("uri", JVal.str "a")], JVal.obj [("uri", JVal.str "b")]]
      (by decide) rfl (by decide)
  · exact (c6_workspace_folders_amended).2.2 exampleParse
      (JVal.obj [("rootUri", JVal.str "https://example.com/repo.zip"),
        ("workspaceFolders", JVal.arr [])]) []
      rfl (by decide)

end LspProxy
namespace LspProxy

/-- A concrete non-`initialize` first message with no `uri` fields: a
`shutdown` request. -/
def exampleShutdownMsg : JVal :=
  JVal.obj [("jsonrpc", JVal.str "2.0"), ("id", JVal.num 1),
    ("method", JVal.str "shutdown")]

/-- Claim C7: a first client message other than the handshake is treated as
a protocol violation — answered with an error or dropped, never forwarded.
As stated this is FALSE: there is no handshake-state check in the handler;
a non-`initialize` first message that contains no `uri` field (here: a
`shutdown` request on a fresh connection) sails through `rewriteUris`
untouched and IS forwarded to the worker, with no error response. -/
theorem c7_counterexample :
    (stepClientMessage exampleParse (Except.error "unused") initialSessionState
      exampleShutdownMsg).forwarded = some exampleShutdownMsg ∧
    (stepClientMessage exampleParse (Except.error "unused") initialSessionState
      exampleShutdownMsg).errorResponse = none :=
  ⟨rfl, rfl⟩

/-- Claim C7 (amended): a non-`initialize` first message (fresh connection,
session roots unset) is forwarded to the worker verbatim whenever it
contains no `uri` field; only messages that do contain a `uri` field fail
(the rewrite throws because the session roots are still unset), in which
case a request is answered with an error response and a message without a
usable `id` is merely logged — in neither failure case is anything
forwarded. -/
theorem c7_first_message_amended (parse : String → Option URL)
    (mat : Except String (List String)) (message : JVal)
    (hni : isInitializeRequest message = false) :
    (hasUriField message = false →
      (stepClientMessage parse mat initialSessionState message).forwarded =
        some message ∧
      (stepClientMessage parse mat initialSessionState message).errorResponse =
        none) ∧
    (∀ i : RpcId, hasUriField message = true → isRequestMessage message = true →
      msgId message = some i →
      (stepClientMessage parse mat initialSessionState message).forwarded = none ∧
      (stepClientMessage parse mat initialSessionState message).errorResponse =
        some (i, rewriteErrMsg)) ∧
    (hasUriField message = true → isRequestMessage message = false →
      (stepClientMessage parse mat initialSessionState message).forwarded = none ∧
      (stepClientMessage parse mat initialSessionState message).errorResponse =
        none) := by
  have hred : stepClientMessage parse mat initialSessionState message =
      (match rewriteUris (clientTransformStr parse none) message with
        | some msg3 =>
          ClientStepResult.mk
            { initialSessionState with
              requestSpans := spanUpdate initialSessionState.requestSpans message }
            (some msg3) none
        | none =>
          ClientStepResult.mk
            { initialSessionState with
              requestSpans := spanUpdate initialSessionState.requestSpans message }
            none
            (if isRequestMessage message then
              (msgId message).map fun i => (i, rewriteErrMsg)
            else none)) := by
    simp only [stepClientMessage]
    rw [interceptInitialize_not_init parse mat _ message hni]
    rfl
  refine ⟨?_, ?_, ?_⟩
  · intro hno
    rw [hred, rewriteUris_no_uri (clientTransformStr parse none) message hno]
    exact ⟨rfl, rfl⟩
  · intro i huri hreq hid
    rw [hred, rewriteUris_none_of_uri (clientTransformStr parse none)
      (clientTransformStr_none parse) message huri]
    refine ⟨rfl, ?_⟩
    show (if isRequestMessage message then
      (msgId message).map fun i => (i, rewriteErrMsg) else none) =
      some (i, rewriteErrMsg)
    rw [if_pos hreq, hid]
    rfl
  · intro huri hnreq
    rw [hred, rewriteUris_none_of_uri (clientTransformStr parse none)
      (clientTransformStr_none parse) message huri]
    refine ⟨rfl, ?_⟩
    show (if isRequestMessage message then
      (msgId message).map fun i => (i, rewriteErrMsg) else none) = none
    rw [if_neg (by simp [hnreq])]

/-- Witness for `c7_first_message_amended`: the concrete `shutdown` first
message is forwarded, and a `textDocument/didOpen`-style request with a
`uri` field on a fresh connection is answered with the rewrite error. -/
theorem c7_first_message_witness :
    ((stepClientMessage exampleParse (Except.error "unused")
      initialSessionState exampleShutdownMsg).forwarded =
        some exampleShutdownMsg ∧
      (stepClientMessage exampleParse (Except.error "unused")
        initialSessionState exampleShutdownMsg).errorResponse = none) ∧
    ((stepClientMessage exampleParse (Except.error "unused")
      initialSessionState
      (JVal.obj [("jsonrpc", JVal.str "2.0"), ("id", JVal.num 2),
        ("method", JVal.str "textDocument/definition"),
        ("params", JVal.obj [("textDocument", JVal.obj [("uri",
          JVal.str "https://example.com/repo.zip#src/a.ts")])])])).forwarded =
        none ∧
      (stepClientMessage exampleParse (Except.error "unused")
        initialSessionState
        (JVal.obj [("jsonrpc", JVal.str "2.0"), ("id", JVal.num 2),
          ("method", JVal.str "textDocument/definition"),
          ("params", JVal.obj [("textDocument", JVal.obj [("uri",
            JVal.str "https://example.com/repo.zip#src/a.ts")])])])).errorResponse =
        some (RpcId.num 2, rewriteErrMsg)) := by
  constructor
  · exact (c7_first_message_amended exampleParse (Except.error "unused")
      exampleShutdownMsg (by decide)).1 (by decide)
  · exact (c7_first_message_amended exampleParse (Except.error "unused")
      (JVal.obj [("jsonrpc", JVal.str "2.0"), ("id", JVal.num 2),
        ("method", JVal.str "textDocument/definition"),
        ("params", JVal.obj [("textDocument", JVal.obj [("uri",
          JVal.str "https://example.com/repo.zip#src/a.ts")])])])
      (by decide)).2.1 (RpcId.num 2) (by decide) (by decide) (by decide)

end LspProxy
namespace LspProxy

/-- The steady-state session after materializing
`https://example.com/repo.zip` into `/tmp/e`. -/
def exampleActiveState : SessionState :=
  { workerSpawned := true, zipRootUri := some exampleZipRoot,
    extractPath := some exampleExtractPath,
    fileRootUri := some (pathToFileURL exampleExtractPath),
    requestSpans := [] }

/-- A notification whose address `https://evil.example/outside` is under
neither the session's archive root (different host, no fragment) nor its
filesystem root (not a file URL). -/
def exampleOutsideMsg : JVal :=
  JVal.obj [("jsonrpc", JVal.str "2.0"),
    ("method", JVal.str "textDocument/didOpen"),
    ("params", JVal.obj [("textDocument", JVal.obj [("uri",
      JVal.str "https://evil.example/outside")])])]

/-- Claim C5: an address outside the session's two roots makes the
translator fail loudly.  As stated this is FALSE: `transformZipToFileUri`
looks only at the fragment, so the out-of-root address
`https://evil.example/outside` is silently rewritten to the session's
filesystem root `file:///tmp/e` and the message is forwarded with no
error. -/
theorem c5_counterexample :
    (stepClientMessage exampleParse (Except.error "unused") exampleActiveState
      exampleOutsideMsg).errorResponse = none ∧
    (stepClientMessage exampleParse (Except.error "unused") exampleActiveState
      exampleOutsideMsg).forwarded =
      some (JVal.obj [("jsonrpc", JVal.str "2.0"),
        ("method", JVal.str "textDocument/didOpen"),
        ("params", JVal.obj [("textDocument", JVal.obj [("uri",
          JVal.str "file:///tmp/e")])])]) ∧
    getUris exampleOutsideMsg = ["https://evil.example/outside"] :=
  ⟨rfl, rfl, rfl⟩

/-- Claim C5 (amended): out-of-root addresses are not rejected.  The
archive→filesystem rule is total — it silently rewrites every parseable
address, using only its fragment — and the filesystem→archive rule fails
exactly on addresses that are not local file URLs, silently rewriting any
file URL (inside the extraction root or not). -/
theorem c5_out_of_root_amended :
    (∀ (parse : String → Option URL) (fr : URL) (s : String) (u : URL),
      parse s = some u →
      clientTransformStr parse (some fr) s =
        some (hrefOf (transformZipToFileUri fr u))) ∧
    (∀ (z : URL) (e : List String) (u : URL),
      u.protocol = "file:" → (u.host = "" ∨ u.host = "localhost") →
      (transformFileToZipUri z e u).isSome = true) ∧
    (∀ (z : URL) (e : List String) (u : URL),
      ¬ (u.protocol = "file:" ∧ (u.host = "" ∨ u.host = "localhost")) →
      transformFileToZipUri z e u = none) := by
  refine ⟨?_, ?_, ?_⟩
  · intro parse fr s u hparse
    unfold clientTransformStr
    rw [hparse]
    rfl
  · intro z e u hproto hhost
    unfold transformFileToZipUri fileURLToPath
    rw [if_pos ⟨hproto, hhost⟩]
    rfl
  · intro z e u hcon
    unfold transformFileToZipUri fileURLToPath
    rw [if_neg hcon]
    rfl

/-- Witness for `c5_out_of_root_amended`: the out-of-root address above is
silently transformed; a file URL outside the extraction root is silently
transformed; an `https` address makes the reverse rule throw. -/
theorem c5_out_of_root_witness :
    clientTransformStr exampleParse (some (pathToFileURL exampleExtractPath))
      "https://evil.example/outside" =
      some (hrefOf (transformZipToFileUri (pathToFileURL exampleExtractPath)
        { protocol := "https:", host := "evil.example", pathname := ["outside"],
          hash := [] })) ∧
    (transformFileToZipUri exampleZipRoot exampleExtractPath
      { protocol := "file:", host := "", pathname := ["somewhere", "else"],
        hash := [] }).isSome = true ∧
    transformFileToZipUri exampleZipRoot exampleExtractPath exampleZipRoot = none := by
  refine ⟨?_, ?_, ?_⟩
  · exact (c5_out_of_root_amended).1 exampleParse
      (pathToFileURL exampleExtractPath) "https://evil.example/outside"
      { protocol := "https:", host := "evil.example", pathname := ["outside"],
        hash := [] } (by decide)
  · exact (c5_out_of_root_amended).2.1 exampleZipRoot exampleExtractPath
      { protocol := "file:", host := "", pathname := ["somewhere", "else"],
        hash := [] } rfl (Or.inl rfl)
  · exact (c5_out_of_root_amended).2.2 exampleZipRoot exampleExtractPath
      exampleZipRoot (by decide)

end LspProxy
